import Mathlib

/-!
# Verification of the costq-web streaming query pipeline

Shallow embedding of the streaming query pipeline of this repository:

* the Protocol Normalizer (`backend/api/agentcore_response_parser.py`,
  class `AgentCoreResponseParser`),
* the Runtime Bridge (`backend/services/agentcore_client.py`,
  `AgentCoreClient.invoke_streaming` and its worker `_invoke_in_thread`),
* the Query Registry (`backend/api/query_registry.py`, class `QueryRegistry`),
* the Query Orchestrator (`backend/api/agent_provider.py`,
  `AWSBedrockAgentProvider.query`).

Modelling conventions, used throughout:

* Python `str` values are modelled as `String` / `List Char`; the regular
  expressions of the source are fixed patterns with lazy groups, translated
  into explicit first-occurrence string scans (`splitFirst`), which agrees
  with the backtracking semantics for these particular patterns because each
  literal of each pattern occurs in a suffix iff it occurs in every larger
  suffix (justified where each scan is defined).
* External library calls that decode data (`json.loads`, byte decoding,
  `ast.literal_eval`) are abstract function parameters of the definitions:
  a decoded JSON value is represented by its canonical serialization
  (a `String`), which is faithful because the code only ever re-serializes
  such values or ships them onward opaquely.
* The truncated md5 digest used for tool ids is modelled by the canonical
  argument serialization itself: like the digest it is a deterministic
  function of the arguments; collisions of the 8-hex-character truncation
  are not modelled.
* Wall-clock timestamps (`time.time()`) are modelled as a `Nat` parameter,
  captured once per parse call exactly as the source captures `timestamp`
  once per `_convert_to_websocket_messages` call.
-/

namespace CostqWeb

/-- Character lists, the working representation of Python strings. -/
abbrev Chars := List Char

/-- The character list of a string literal. -/
def lit (s : String) : Chars := s.data

/-- Python `\s` for the ASCII whitespace characters (the payloads handled by
the pipeline are ASCII-markup wrappers; non-ASCII whitespace is not
modelled). -/
def isPyWs (c : Char) : Bool :=
  c = ' ' || c = '\t' || c = '\n' || c = '\r' || c = '\x0b' || c = '\x0c'

/-- Python `str.strip()`: remove leading and trailing whitespace. -/
def pyStrip (s : Chars) : Chars :=
  ((s.dropWhile isPyWs).reverse.dropWhile isPyWs).reverse

/-- First occurrence of `pat` in `s`: `splitFirst pat s = some (a, b)` means
`s = a ++ pat ++ b` with `a` shortest possible.  This is Python
`s.find(pat)` together with the split at the match. -/
def splitFirst (pat : Chars) : Chars → Option (Chars × Chars)
  | [] => if pat.isPrefixOf [] then some ([], ([] : Chars).drop pat.length) else none
  | c :: rest =>
    if pat.isPrefixOf (c :: rest) then some ([], (c :: rest).drop pat.length)
    else (splitFirst pat rest).map (fun p => (c :: p.1, p.2))

/-- Python `pat in s` (substring containment). -/
def containsSub (pat : Chars) (s : Chars) : Bool :=
  (splitFirst pat s).isSome

theorem splitFirst_sound {pat s a b : Chars} :
    splitFirst pat s = some (a, b) → s = a ++ pat ++ b := by
  induction s generalizing a with
  | nil =>
    intro h
    by_cases hp : pat.isPrefixOf ([] : Chars)
    · have : pat = [] := List.prefix_nil.mp (List.isPrefixOf_iff_prefix.mp hp)
      subst this
      simp [splitFirst] at h
      simp [h.1, h.2]
    · simp [splitFirst, hp] at h
  | cons c rest ih =>
    intro h
    by_cases hp : pat.isPrefixOf (c :: rest)
    · simp [splitFirst, hp] at h
      obtain ⟨h1, h2⟩ := h
      subst h1
      have hpre : pat <+: c :: rest := List.isPrefixOf_iff_prefix.mp hp
      obtain ⟨t, ht⟩ := hpre
      rw [← h2, ← ht]
      simp [← ht, List.drop_left]
    · simp only [splitFirst, hp, if_false] at h
      match hrec : splitFirst pat rest with
      | none => simp [hrec] at h
      | some (a', b') =>
        simp [hrec] at h
        obtain ⟨h1, h2⟩ := h
        subst h2
        rw [← h1]
        simp [ih hrec]

theorem splitFirst_length {pat s a b : Chars} (h : splitFirst pat s = some (a, b)) :
    a.length + pat.length + b.length = s.length := by
  have := splitFirst_sound h
  subst this
  simp [Nat.add_assoc]

theorem splitFirst_isPrefixOf {pat s : Chars} (hne : pat ≠ []) (hp : pat.isPrefixOf s) :
    splitFirst pat s = some ([], s.drop pat.length) := by
  cases s with
  | nil =>
    exact absurd (List.prefix_nil.mp (List.isPrefixOf_iff_prefix.mp hp)) hne
  | cons c rest => simp [splitFirst, hp]

theorem containsSub_of_isPrefixOf {pat s : Chars} (hne : pat ≠ []) (hp : pat.isPrefixOf s) :
    containsSub pat s = true := by
  simp [containsSub, splitFirst_isPrefixOf hne hp]

theorem splitFirst_isSome_cons {pat s : Chars} (c : Char)
    (h : (splitFirst pat s).isSome = true) : (splitFirst pat (c :: s)).isSome = true := by
  simp only [splitFirst]
  by_cases hp : pat.isPrefixOf (c :: s)
  · simp [hp]
  · simp [hp, h]

theorem containsSub_intro (pat a b : Chars) : containsSub pat (a ++ pat ++ b) = true := by
  induction a with
  | nil =>
    rw [List.nil_append]
    by_cases hne : pat = []
    · subst hne
      cases b with
      | nil => rfl
      | cons c rest => simp [containsSub, splitFirst, List.isPrefixOf]
    · exact containsSub_of_isPrefixOf hne
        (List.isPrefixOf_iff_prefix.mpr (List.prefix_append pat b))
  | cons c a' ih =>
    show (splitFirst pat ((c :: a') ++ pat ++ b)).isSome = true
    have hassoc : (c :: a') ++ pat ++ b = c :: (a' ++ pat ++ b) := by simp
    rw [hassoc]
    exact splitFirst_isSome_cons c ih

theorem containsSub_append_right {pat a : Chars} (b : Chars)
    (h : containsSub pat a = true) : containsSub pat (a ++ b) = true := by
  obtain ⟨⟨x, y⟩, hxy⟩ := Option.isSome_iff_exists.mp h
  have := splitFirst_sound hxy
  subst this
  simpa [List.append_assoc] using containsSub_intro pat x (y ++ b)

theorem containsSub_append_left {pat b : Chars} (a : Chars)
    (h : containsSub pat b = true) : containsSub pat (a ++ b) = true := by
  obtain ⟨⟨x, y⟩, hxy⟩ := Option.isSome_iff_exists.mp h
  have := splitFirst_sound hxy
  subst this
  simpa [List.append_assoc] using containsSub_intro pat (a ++ x) y

theorem containsSub_of_take {pat s : Chars} {k : Nat}
    (h : containsSub pat (s.take k) = true) : containsSub pat s = true := by
  have := containsSub_append_right (s.drop k) h
  rwa [List.take_append_drop] at this

theorem containsSub_of_drop {pat s : Chars} {k : Nat}
    (h : containsSub pat (s.drop k) = true) : containsSub pat s = true := by
  have := containsSub_append_left (s.take k) h
  rwa [List.take_append_drop] at this

theorem containsSub_of_drop_isPrefixOf {pat s : Chars} {j : Nat}
    (hne : pat ≠ []) (hp : pat.isPrefixOf (s.drop j)) : containsSub pat s = true :=
  containsSub_of_drop (containsSub_of_isPrefixOf hne hp)

/-- `re.sub(pat, "", s)` for a fixed literal pattern: remove every
(non-overlapping, left-to-right) occurrence.  Also Python
`s.replace(pat, "")`, which has the same semantics.  The `Nat` argument
counts characters of an already-matched occurrence still to be skipped. -/
def removeAllGo (pat : Chars) : Chars → Nat → Chars
  | [], _ => []
  | _ :: rest, n + 1 => removeAllGo pat rest n
  | c :: rest, 0 =>
    if pat ≠ [] ∧ pat.isPrefixOf (c :: rest) then removeAllGo pat rest (pat.length - 1)
    else c :: removeAllGo pat rest 0

/-- Python `s.replace(pat, "")` (and `re.sub` with a literal pattern and
empty replacement). -/
def removeAll (pat s : Chars) : Chars := removeAllGo pat s 0

/-- `re.sub(lit + r"\s*", "", s)`: at each scan position, if the literal
matches, the literal together with the maximal following whitespace run is
removed (the greedy `\s*`); otherwise scanning advances one character.  The
`Nat` counts remaining characters of a matched literal to skip; the `Bool`
records that a whitespace run following a removed literal is still being
swallowed. -/
def subLitWsGo (pat : Chars) : Chars → Nat → Bool → Chars
  | [], _, _ => []
  | _ :: rest, n + 1, b => subLitWsGo pat rest n b
  | c :: rest, 0, b =>
    if b ∧ isPyWs c then subLitWsGo pat rest 0 true
    else if pat ≠ [] ∧ pat.isPrefixOf (c :: rest) then
      subLitWsGo pat rest (pat.length - 1) true
    else c :: subLitWsGo pat rest 0 false

/-- `re.sub(lit + r"\s*", "", s)` for a literal `lit`. -/
def subLitWs (pat s : Chars) : Chars := subLitWsGo pat s 0 false

/-- `re.sub(r"\s*" + lit, "", s)` where `lit` starts with a non-whitespace
character: a match at a scan position is the whitespace run from that
position followed immediately by the literal (since the literal's first
character is not whitespace, backtracking inside the run cannot produce any
other match), and the whole span is removed. -/
def subWsLitGo (pat : Chars) : Chars → Nat → Chars
  | [], _ => []
  | _ :: rest, n + 1 => subWsLitGo pat rest n
  | c :: rest, 0 =>
    let w := (c :: rest).takeWhile isPyWs
    if pat ≠ [] ∧ pat.isPrefixOf ((c :: rest).drop w.length) then
      subWsLitGo pat rest (w.length + pat.length - 1)
    else c :: subWsLitGo pat rest 0

/-- `re.sub(r"\s*" + lit, "", s)` for a literal `lit` starting with a
non-whitespace character. -/
def subWsLit (pat s : Chars) : Chars := subWsLitGo pat s 0

/-- `re.search(r'(.*?)<invoke name="(.*?)">(.*?)</invoke>(.*)', s, re.DOTALL)`
(agentcore_response_parser.py line 339).  Resolved as successive first
occurrences: the lazy leading group makes the match start at the first
`<invoke name="`, the lazy name group ends at the first following `"＞`
pair, the lazy params group ends at the first following `</invoke>`.  If a
later stage has no occurrence in its suffix it has none in any shorter
suffix either, so no backtracking to a later starting point can succeed and
first-occurrence resolution agrees with the regex engine. -/
def findInvoke (s : Chars) : Option (Chars × Chars × Chars × Chars) := do
  let (pre, r1) ← splitFirst (lit "<invoke name=\"") s
  let (name, r2) ← splitFirst (lit "\">") r1
  let (params, post) ← splitFirst (lit "</invoke>") r2
  pure (pre, name, params, post)

/-- One match of `<parameter name="(.*?)">(.*?)</parameter>` (used both by
`re.finditer` over the params of an invoke block, line 356, and by
`re.search` in the orphan-parameter recovery loop, line 436), resolved by
first occurrences exactly as `findInvoke`.  Returns
`(pre, name, value, post)`. -/
def findParam (s : Chars) : Option (Chars × Chars × Chars × Chars) := do
  let (pre, r1) ← splitFirst (lit "<parameter name=\"") s
  let (name, r2) ← splitFirst (lit "\">") r1
  let (value, post) ← splitFirst (lit "</parameter>") r2
  pure (pre, name, value, post)

/-- `re.search(r"<result>(.*?)</result>", s, re.DOTALL)` (line 304),
resolved by first occurrences.  Returns `(pre, inner, post)`. -/
def findResult (s : Chars) : Option (Chars × Chars × Chars) := do
  let (pre, r1) ← splitFirst (lit "<result>") s
  let (inner, post) ← splitFirst (lit "</result>") r1
  pure (pre, inner, post)

theorem splitFirst_none_of_not_contains {pat s : Chars}
    (h : ¬ containsSub pat s = true) : splitFirst pat s = none := by
  cases hs : splitFirst pat s with
  | none => rfl
  | some p => exact absurd (by simp [containsSub, hs]) h

theorem subLitWs_id {pat s : Chars} (h : ¬ containsSub pat s = true) :
    subLitWs pat s = s := by
  suffices hgo : ∀ (t : Chars), ¬ containsSub pat t = true → subLitWsGo pat t 0 false = t by
    exact hgo s h
  intro t
  induction t with
  | nil => intro _; rfl
  | cons c rest ih =>
    intro hc
    have hrest : ¬ containsSub pat rest = true := fun hr =>
      hc (containsSub_append_left [c] hr)
    have hp : ¬ (pat ≠ [] ∧ pat.isPrefixOf (c :: rest)) := by
      rintro ⟨hne, hpre⟩
      exact hc (containsSub_of_isPrefixOf hne hpre)
    simp only [subLitWsGo]
    rw [if_neg (by simp), if_neg hp, ih hrest]

theorem subWsLit_id {pat s : Chars} (h : ¬ containsSub pat s = true) :
    subWsLit pat s = s := by
  suffices hgo : ∀ (t : Chars), ¬ containsSub pat t = true → subWsLitGo pat t 0 = t by
    exact hgo s h
  intro t
  induction t with
  | nil => intro _; rfl
  | cons c rest ih =>
    intro hc
    have hrest : ¬ containsSub pat rest = true := fun hr =>
      hc (containsSub_append_left [c] hr)
    have hp : ¬ (pat ≠ [] ∧
        pat.isPrefixOf ((c :: rest).drop ((c :: rest).takeWhile isPyWs).length)) := by
      rintro ⟨hne, hpre⟩
      exact hc (containsSub_of_drop_isPrefixOf hne hpre)
    simp only [subWsLitGo]
    rw [if_neg hp, ih hrest]

theorem findResult_none {s : Chars} (h : ¬ containsSub (lit "<result>") s = true) :
    findResult s = none := by
  simp [findResult, splitFirst_none_of_not_contains h]

theorem findInvoke_none_of_no_close {s : Chars}
    (h : ¬ containsSub (lit "</invoke>") s = true) : findInvoke s = none := by
  cases h1 : splitFirst (lit "<invoke name=\"") s with
  | none => simp [findInvoke, h1]
  | some p1 =>
    obtain ⟨pre, r1⟩ := p1
    cases h2 : splitFirst (lit "\">") r1 with
    | none => simp [findInvoke, h1, h2]
    | some p2 =>
      obtain ⟨nm, r2⟩ := p2
      cases h3 : splitFirst (lit "</invoke>") r2 with
      | none => simp [findInvoke, h1, h2, h3]
      | some p3 =>
        exfalso
        obtain ⟨ps, post⟩ := p3
        have hs1 := splitFirst_sound h1
        have hs2 := splitFirst_sound h2
        have hs3 := splitFirst_sound h3
        have hc2 : containsSub (lit "</invoke>") r2 = true := by
          rw [hs3]; exact containsSub_intro _ ps post
        have hc1 : containsSub (lit "</invoke>") r1 = true := by
          rw [hs2, List.append_assoc]
          exact containsSub_append_left _ (containsSub_append_left _ hc2)
        exact h (by
          rw [hs1, List.append_assoc]
          exact containsSub_append_left _ (containsSub_append_left _ hc1))

/-! ## Protocol Normalizer data model

`backend/api/agentcore_response_parser.py`, class `AgentCoreResponseParser`.
Input frames are the dictionaries the class shape-sniffs; they are modelled
as a structure with one optional field per key the code tests, so that any
combination of keys a dictionary could carry is expressible. -/

/-- A parameter value of a tool invocation: `json.loads(p_value)` on
success (represented by the canonical serialization of the decoded value),
else the raw text (parser line 364). -/
inductive PVal
  | parsed (ser : String)
  | raw (s : String)
deriving DecidableEq, Repr

/-- `try: args[p] = json.loads(v) except: args[p] = v` with the external
`json.loads` supplied as `jd`. -/
def decodePVal (jd : String → Option String) (v : Chars) : PVal :=
  match jd (String.mk v) with
  | some ser => .parsed ser
  | none => .raw (String.mk v)

/-- Python dict assignment `d[k] = v`: overwrite in place, else append
(insertion order preserved, an updated key keeps its position). -/
def insertOrdered {α : Type} : List (String × α) → String → α → List (String × α)
  | [], k, v => [(k, v)]
  | (k', v') :: rest, k, v =>
    if k' = k then (k, v) :: rest else (k', v') :: insertOrdered rest k v

/-- Lexicographic code-point order on strings, Python's string order used
by `json.dumps(..., sort_keys=True)`. -/
def charsLe : Chars → Chars → Bool
  | [], _ => true
  | _ :: _, [] => false
  | a :: as, b :: bs => if a = b then charsLe as bs else decide (a < b)

/-- Insertion sort by key under `charsLe` (the sorting applied by
`json.dumps(args, sort_keys=True)`, parser line 377). -/
def insertSorted (x : String × PVal) : List (String × PVal) → List (String × PVal)
  | [] => [x]
  | y :: rest => if charsLe x.1.data y.1.data then x :: y :: rest else y :: insertSorted x rest

def sortByKey (l : List (String × PVal)) : List (String × PVal) :=
  l.foldr insertSorted []

/-- Serialization of one parameter value inside `json.dumps(args)`.
String escaping of the raw fallback is not modelled (it does not affect
determinism, the only property the digest input needs). -/
def dumpPVal : PVal → String
  | .parsed ser => ser
  | .raw s => "\"" ++ s ++ "\""

/-- `json.dumps(args, sort_keys=True)` (parser line 377), up to the
object braces. -/
def argsDump (args : List (String × PVal)) : String :=
  String.intercalate "," ((sortByKey args).map (fun kv => "\"" ++ kv.1 ++ "\":" ++ dumpPVal kv.2))

/-- Stand-in for `hashlib.md5(args_str.encode()).hexdigest()[:8]` (parser
line 378): modelled as the serialization itself — deterministic in the
arguments exactly like the digest; collisions of the truncated digest are
not modelled. -/
def md5Hex8 (s : String) : String := s

/-- `tool_id = f"tool_{tool_name}_{args_hash}_{int(timestamp * 1000)}"`
(parser line 379).  The wall-clock float `timestamp` is the `Nat` `tms`. -/
def toolIdOf (name : Chars) (args : List (String × PVal)) (tms : Nat) : String :=
  "tool_" ++ String.mk name ++ "_" ++ md5Hex8 (argsDump args) ++ "_" ++ toString (tms * 1000)

/-- Python set insertion (`self.sent_tool_ids.add`): only membership is
ever consulted. -/
def insertSent (s : List String) (tid : String) : List String :=
  if tid ∈ s then s else tid :: s

/-- Token usage numbers (parser lines 196-207).  The two float-valued
cache-hit-rate fields of the source message are elided: floating point is
outside this embedding and nothing downstream reads them. -/
structure Usage where
  input_tokens : Nat := 0
  output_tokens : Nat := 0
  cache_read_tokens : Nat := 0
  cache_write_tokens : Nat := 0
deriving DecidableEq, Repr

/-- The `args` payload of a tool-call-start message: an ordered key/value
list from the invoke-block path, a decoded JSON object from the
`contentBlockStop` path, or the empty dict fallback. -/
inductive AVal
  | pairs (l : List (String × PVal))
  | jsonObj (ser : String)
  | emptyObj
deriving DecidableEq, Repr

/-- The `result` payload of a tool-call-result message. -/
inductive RVal
  | json (ser : String)
  | rawStr (s : String)
  | textObj (s : String)
  | emptyObj
deriving DecidableEq, Repr

/-- The WebSocket messages produced by the Normalizer (the dictionaries
appended to `messages`).  `update` is the presence of the `"update": True`
key of the corrective re-emission (parser line 471); `description` is the
extra field of the `contentBlockStop` emission (line 581). -/
inductive MsgBody
  | errorB (content : String)
  | tokenUsageB (usage : Usage)
  | messageStartB (role : String)
  | chunkB (content : String)
  | toolCallStartB (tool_id : String) (tool_name : String) (args : AVal)
      (update : Bool) (description : Option String)
  | toolCallResultB (tool_use_id : String) (result : RVal) (status : String)
  | completeB (stop_reason : Option String) (success : Bool)
deriving DecidableEq, Repr

structure Msg where
  body : MsgBody
  timestamp : Nat
  session_id : Option String := none
deriving DecidableEq, Repr

/-- `event["contentBlockDelta"]`: `toolUse` is present iff the delta has a
`toolUse` key, carrying its `input` string (`tool_delta.get("input", "")`,
defaulted at construction). -/
structure CBDelta where
  toolUse : Option String := none
  text : Option String := none
  contentBlockIndex : Option Int := none
deriving DecidableEq, Repr

/-- `event["contentBlockStart"]`: `toolUse` carries
`(toolUseId, name)`.  Frames lacking these sub-keys (Python `None` values,
which the code would carry along as opaque dictionary keys) are not
modelled; none of the verified claims depends on them. -/
structure CBStart where
  toolUse : Option (String × String) := none
  contentBlockIndex : Option Int := none
deriving DecidableEq, Repr

structure CBStop where
  contentBlockIndex : Option Int := none
deriving DecidableEq, Repr

/-- `event`: one optional field per key the code tests; several may be
present in one frame and are processed in the source's order. -/
structure EventData where
  messageStart : Option String := none
  contentBlockDelta : Option CBDelta := none
  contentBlockStart : Option CBStart := none
  contentBlockStop : Option CBStop := none
  messageStop : Option (Option String) := none
deriving DecidableEq, Repr

/-- One element of a `toolResult.content` array (parser lines 665-680):
a string-valued `json` entry, a non-string `json` entry (represented by
its canonical serialization), a `text` entry, or anything else. -/
inductive RItem
  | jsonStr (s : String)
  | jsonVal (ser : String)
  | textIt (s : String)
  | otherIt
deriving DecidableEq, Repr

structure ToolResultData where
  toolUseId : String
  content : List RItem := []
  status : Option String := none
deriving DecidableEq, Repr

inductive MContent
  | toolResult (tr : ToolResultData)
  | otherContent
deriving DecidableEq, Repr

structure MessageData where
  role : Option String := none
  content : List MContent := []
deriving DecidableEq, Repr

/-- A Runtime data frame: one optional field per top-level key the parser
tests (`error`, `type == "token_usage"`/`usage`/`timestamp`, `event`,
`message`). -/
structure DataFrame where
  error : Option String := none
  ftype : Option String := none
  usage : Option Usage := none
  tu_timestamp : Option Nat := none
  event : Option EventData := none
  message : Option MessageData := none
deriving DecidableEq, Repr

/-- A pending tool call awaiting its streamed arguments
(`self.pending_tool_calls[tool_id]`, parser line 538). -/
structure Pending where
  name : String
  args_buffer : String
  content_block_index : Option Int
deriving DecidableEq, Repr

/-- The per-query state of `AgentCoreResponseParser.__init__`. -/
structure PState where
  buffer : Chars := []
  session_id : Option String := none
  tool_id_map : List (String × String) := []
  sent_tool_ids : List String := []
  pending_tool_calls : List (String × Pending) := []
deriving DecidableEq, Repr

/-- Initial parser state (`AgentCoreResponseParser(session_id=...)`). -/
def PState.init (sid : Option String) : PState := { session_id := sid }

/-! ## Protocol Normalizer operations -/

/-- `re.finditer` over the params of an invoke block (parser lines
356-367): successive matches, each parameter assigned into the args dict
(later duplicate names overwrite).  Fueled; one unit of fuel per match, a
match strictly shortens the scanned text. -/
def parseParamsF (jd : String → Option String) :
    Nat → Chars → List (String × PVal) → List (String × PVal)
  | 0, _, acc => acc
  | fuel + 1, s, acc =>
    match findParam s with
    | some (_, k, v, post) => parseParamsF jd fuel post (insertOrdered acc (String.mk k) (decodePVal jd v))
    | none => acc

def parseParams (jd : String → Option String) (s : Chars) : List (String × PVal) :=
  parseParamsF jd (s.length + 1) s []

/-- The orphan-parameter recovery loop (parser lines 434-459): stray
`<parameter>` tags found after `</invoke>` are merged into `args` and all
occurrences of the matched tag text are removed from the buffer
(`self.buffer.replace(match.group(0), "")`).  Returns the merged args, the
rewritten buffer, and whether any stray parameter was found. -/
def orphanLoopF (jd : String → Option String) :
    Nat → List (String × PVal) → Chars → List (String × PVal) × Chars × Bool
  | 0, args, buf => (args, buf, false)
  | fuel + 1, args, buf =>
    match findParam buf with
    | some (_, k, v, _) =>
      let args2 := insertOrdered args (String.mk k) (decodePVal jd v)
      let whole := lit "<parameter name=\"" ++ k ++ lit "\">" ++ v ++ lit "</parameter>"
      let r := orphanLoopF jd fuel args2 (removeAll whole buf)
      (r.1, r.2.1, true)
    | none => (args, buf, false)

def orphanLoop (jd : String → Option String) (args : List (String × PVal)) (buf : Chars) :
    List (String × PVal) × Chars × Bool :=
  orphanLoopF jd (buf.length + 1) args buf

/-- The `while True` loop over `<invoke>` blocks (parser lines 337-524),
operating on `buffer`, `sent_tool_ids` and `tool_id_map`.  Fueled: every
recursive continuation strictly shortens the buffer (a matched block is
consumed, or only the orphan-scrubbed remainder is kept). -/
def invokeLoopF (jd : String → Option String) (tms : Nat) :
    Nat → PState → List Msg × PState
  | 0, st => ([], st)
  | fuel + 1, st =>
    match findInvoke st.buffer with
    | some (pre, name, params, post) =>
      let preMsgs : List Msg := if pre ≠ [] then [⟨.chunkB (String.mk pre), tms, none⟩] else []
      let args := parseParams jd params
      let tid := toolIdOf name args tms
      if tid ∈ st.sent_tool_ids then
        let r := invokeLoopF jd tms fuel { st with buffer := post }
        (preMsgs ++ r.1, r.2)
      else
        let st1 : PState := { st with
          buffer := post
          sent_tool_ids := insertSent st.sent_tool_ids tid
          tool_id_map := insertOrdered st.tool_id_map (String.mk name) tid }
        let startMsg : Msg := ⟨.toolCallStartB tid (String.mk name) (.pairs args) false none, tms, none⟩
        let orph := orphanLoop jd args st1.buffer
        let updMsgs : List Msg :=
          if orph.2.2 then
            [⟨.toolCallStartB tid (String.mk name) (.pairs orph.1) true none, tms, none⟩]
          else []
        let buf3 := subLitWs (lit "</invoke>") orph.2.1
        if buf3 ≠ [] ∧ ¬ containsSub (lit "<invoke") buf3 then
          (preMsgs ++ [startMsg] ++ updMsgs ++ [⟨.chunkB (String.mk buf3), tms, none⟩],
           { st1 with buffer := [] })
        else
          let r := invokeLoopF jd tms fuel { st1 with buffer := buf3 }
          (preMsgs ++ [startMsg] ++ updMsgs ++ r.1, r.2)
    | none =>
      if containsSub (lit "<invoke") st.buffer then
        match splitFirst (lit "<invoke") st.buffer with
        | some (preIdx, rest) =>
          if preIdx ≠ [] then
            ([⟨.chunkB (String.mk preIdx), tms, none⟩],
             { st with buffer := lit "<invoke" ++ rest })
          else ([], st)
        | none => ([], st)
      else
        if st.buffer ≠ [] then
          ([⟨.chunkB (String.mk st.buffer), tms, none⟩], { st with buffer := [] })
        else ([], st)

/-- The `<result>` block handling inside the text-delta handler (parser
lines 303-334): at most one `<result>...</result>` block is recognized; on
a successful decode the result is attributed to the most recently inserted
`tool_id_map` entry; whether or not the decode succeeds, all occurrences of
the matched block text are removed from the buffer. -/
def resultScan (jd : String → Option String) (tms : Nat) (map : List (String × String))
    (buf : Chars) : List Msg × Chars :=
  match findResult buf with
  | some (_, inner, _) =>
    let buf2 := removeAll (lit "<result>" ++ inner ++ lit "</result>") buf
    match jd (String.mk (pyStrip inner)) with
    | some ser =>
      match map.getLast? with
      | some kv =>
        if kv.2 ≠ "" then
          ([⟨.toolCallResultB kv.2 (.json ser) "success", tms, none⟩], buf2)
        else ([], buf2)
      | none => ([], buf2)
    | none => ([], buf2)
  | none => ([], buf)

/-- The text-delta handler (parser lines 289-524): append the delta text to
the rolling buffer, scrub the `<function_calls>` wrapper markers, handle at
most one embedded `<result>` block, then run the invoke-block loop. -/
def textStep (jd : String → Option String) (tms : Nat) (text : String) (st : PState) :
    List Msg × PState :=
  let buf2 := subWsLit (lit "</function_calls>")
    (subLitWs (lit "<function_calls>") (st.buffer ++ text.data))
  let rs := resultScan jd tms st.tool_id_map buf2
  let r := invokeLoopF jd tms (rs.2.length + 1) { st with buffer := rs.2 }
  (rs.1 ++ r.1, r.2)

/-- First pending tool call whose recorded `content_block_index` equals the
frame's (parser lines 274-279 and 554-559; Python dicts iterate in
insertion order and the loop breaks at the first hit). -/
def findPendingByIdx (p : List (String × Pending)) (idx : Option Int) :
    Option (String × Pending) :=
  p.find? (fun kv => decide (kv.2.content_block_index = idx))

/-- Append to the matching pending call's argument buffer (parser line 282). -/
def appendArgsBuffer (p : List (String × Pending)) (tid : String) (inp : String) :
    List (String × Pending) :=
  p.map (fun kv =>
    if kv.1 = tid then (kv.1, { kv.2 with args_buffer := kv.2.args_buffer ++ inp }) else kv)

/-- `del self.pending_tool_calls[tool_id]` (parser line 597). -/
def removePending (p : List (String × Pending)) (tid : String) : List (String × Pending) :=
  p.filter (fun kv => decide (kv.1 ≠ tid))

/-- Remove the first `tool_id_map` entry whose value is the given id
(parser lines 697-701: iterate items, delete, break). -/
def removeFirstByVal : List (String × String) → String → List (String × String)
  | [], _ => []
  | (k, v) :: rest, tid => if v = tid then rest else (k, v) :: removeFirstByVal rest tid

/-- `contentBlockDelta` handler (parser lines 264-524): tool-argument
accumulation, then the text machinery. -/
def cbDeltaStep (jd : String → Option String) (tms : Nat) (d : CBDelta) (st : PState) :
    List Msg × PState :=
  let st1 :=
    match d.toolUse with
    | some inp =>
      match findPendingByIdx st.pending_tool_calls d.contentBlockIndex with
      | some kv => { st with pending_tool_calls := appendArgsBuffer st.pending_tool_calls kv.1 inp }
      | none => st
    | none => st
  match d.text with
  | some t => textStep jd tms t st1
  | none => ([], st1)

/-- `contentBlockStart` handler (parser lines 527-548): record a pending
tool call, emit nothing. -/
def cbStartStep (c : CBStart) (st : PState) : PState :=
  match c.toolUse with
  | some (tid, name) =>
    { st with pending_tool_calls :=
        insertOrdered st.pending_tool_calls tid ⟨name, "", c.contentBlockIndex⟩ }
  | none => st

/-- `contentBlockStop` handler (parser lines 551-597): parse the
accumulated argument buffer, emit one tool-call-start unless the id was
already emitted, clear the pending record. -/
def cbStopStep (jd : String → Option String) (tms : Nat) (c : CBStop) (st : PState) :
    List Msg × PState :=
  match findPendingByIdx st.pending_tool_calls c.contentBlockIndex with
  | some kv =>
    let tid := kv.1
    let info := kv.2
    let args : AVal :=
      if info.args_buffer = "" then .emptyObj
      else
        match jd info.args_buffer with
        | some ser => .jsonObj ser
        | none => .emptyObj
    let emitted : List Msg × List String :=
      if tid ∈ st.sent_tool_ids then ([], st.sent_tool_ids)
      else
        ([⟨.toolCallStartB tid info.name args false (some ("调用工具: " ++ info.name)), tms, none⟩],
         insertSent st.sent_tool_ids tid)
    (emitted.1, { st with
      sent_tool_ids := emitted.2
      pending_tool_calls := removePending st.pending_tool_calls tid })
  | none => ([], st)

/-- `messageStop` handler (parser lines 599-644): drain the buffer as a
final chunk, then emit `complete` exactly for the genuine end-of-turn stop
reasons. -/
def msgStopStep (tms : Nat) (reason : Option String) (st : PState) : List Msg × PState :=
  let drain : List Msg :=
    if st.buffer ≠ [] then [⟨.chunkB (String.mk st.buffer), tms, none⟩] else []
  let st1 := { st with buffer := ([] : Chars) }
  if reason = some "end_turn" ∨ reason = some "max_tokens" ∨ reason = some "stop_sequence" then
    (drain ++ [⟨.completeB reason true, tms, none⟩], st1)
  else (drain, st1)

/-- Fold of a `toolResult.content` array into the `result` payload (parser
lines 664-680 and 714-731): each recognized entry overwrites the
accumulator, unrecognized entries are skipped. -/
def resultDataOf (jd : String → Option String) (items : List RItem) : RVal :=
  items.foldl
    (fun acc it =>
      match it with
      | .jsonStr s =>
        match jd s with
        | some ser => .json ser
        | none => .rawStr s
      | .jsonVal ser => .json ser
      | .textIt s => .textObj s
      | .otherIt => acc)
    .emptyObj

/-- One `toolResult` content entry of a `message` frame (parser lines
656-701): emit a tool-call-result carrying the upstream `toolUseId`
unchanged, then drop the first `tool_id_map` entry with that value. -/
def toolResultStep (jd : String → Option String) (tms : Nat) (tr : ToolResultData)
    (st : PState) : List Msg × PState :=
  ([⟨.toolCallResultB tr.toolUseId (resultDataOf jd tr.content) (tr.status.getD "success"),
     tms, none⟩],
   { st with tool_id_map := removeFirstByVal st.tool_id_map tr.toolUseId })

/-- The loop over a `message` frame's content entries (parser lines
654-701 and 705-752). -/
def messageFold (jd : String → Option String) (tms : Nat) :
    List MContent → List Msg × PState → List Msg × PState
  | [], acc => acc
  | c :: rest, acc =>
    match c with
    | .toolResult tr =>
      let r := toolResultStep jd tms tr acc.2
      messageFold jd tms rest (acc.1 ++ r.1, r.2)
    | .otherContent => messageFold jd tms rest acc

/-- `message` frame handler (parser lines 648-752): the assistant-role and
user-role branches run the same toolResult extraction. -/
def messageStep (jd : String → Option String) (tms : Nat) (m : MessageData) (st : PState) :
    List Msg × PState :=
  if m.role = some "assistant" ∨ m.role = some "user" then
    messageFold jd tms m.content ([], st)
  else ([], st)

/-- Sequencing of two message-producing steps: run the second on the first's
state and concatenate the outputs. -/
def andThen (r : List Msg × PState) (f : PState → List Msg × PState) : List Msg × PState :=
  (r.1 ++ (f r.2).1, (f r.2).2)

/-- Sequencing with a step that only transforms state and emits nothing. -/
def andState (r : List Msg × PState) (g : PState → PState) : List Msg × PState :=
  (r.1, g r.2)

/-- The `event` sub-handlers of `_convert_to_websocket_messages` (parser
lines 245-644), run in the source's order: `messageStart`,
`contentBlockDelta`, `contentBlockStart` (state only), `contentBlockStop`,
`messageStop`. -/
def eventStep (jd : String → Option String) (tms : Nat) (ev : EventData) (st : PState) :
    List Msg × PState :=
  andThen
    (andThen
      (andState
        (andThen
          ((match ev.messageStart with
            | some role => [⟨.messageStartB role, tms, none⟩]
            | none => []), st)
          (fun s =>
            match ev.contentBlockDelta with
            | some cbd => cbDeltaStep jd tms cbd s
            | none => ([], s)))
        (fun s =>
          match ev.contentBlockStart with
          | some cbs => cbStartStep cbs s
          | none => s))
      (fun s =>
        match ev.contentBlockStop with
        | some cbp => cbStopStep jd tms cbp s
        | none => ([], s)))
    (fun s =>
      match ev.messageStop with
      | some r => msgStopStep tms r s
      | none => ([], s))

/-- `_convert_to_websocket_messages` (parser lines 155-754): the top-level
shape dispatch, in the source's order — `error` returns immediately, then
`token_usage` returns immediately, then the `event` sub-handlers run in
sequence, then the `message` handler. -/
def convert (jd : String → Option String) (tms : Nat) (d : DataFrame) (st : PState) :
    List Msg × PState :=
  match d.error with
  | some e => ([⟨.errorB ("Runtime 错误: " ++ e), tms, none⟩], st)
  | none =>
    if d.ftype = some "token_usage" then
      ([⟨.tokenUsageB (d.usage.getD {}), d.tu_timestamp.getD tms, none⟩], st)
    else
      andThen
        (match d.event with
          | some ev => eventStep jd tms ev st
          | none => ([], st))
        (fun st2 =>
          match d.message with
          | some m => messageStep jd tms m st2
          | none => ([], st2))

/-- `_add_session_id` (parser lines 45-62). -/
def addSid (sid : Option String) (m : Msg) : Msg :=
  match sid with
  | some s => { m with session_id := some s }
  | none => m

/-- The value classes `_parse_data_string` can produce: a dictionary frame
or any non-dictionary value (which `_convert_to_websocket_messages`
rejects at its type check, line 174). -/
inductive TopVal
  | dictV (d : DataFrame)
  | nonDictV
deriving DecidableEq, Repr

/-- The input classes `parse_event` distinguishes with `isinstance`
(parser lines 87-102): an already-parsed dictionary, a string, raw bytes,
or any other type. -/
inductive PyEvent
  | dictE (d : DataFrame)
  | strE (s : String)
  | bytesE (bs : List Nat)
  | otherE
deriving DecidableEq, Repr

/-- `convert` plus the session-id tagging of every produced message. -/
def convertTagged (jd : String → Option String) (tms : Nat) (d : DataFrame) (st : PState) :
    List Msg × PState :=
  let r := convert jd tms d st
  (r.1.map (addSid st.session_id), r.2)

/-- The string path of `parse_event` (parser lines 104-118): strip, demand
the `data: ` prefix, decode via `_parse_data_string` (the abstract `pds`),
convert dictionaries, ignore everything else. -/
def parseLine (jd : String → Option String) (pds : String → Option TopVal) (tms : Nat)
    (s : String) (st : PState) : List Msg × PState :=
  let es := pyStrip s.data
  if es = [] then ([], st)
  else if (lit "data: ").isPrefixOf es then
    match pds (String.mk (es.drop 6)) with
    | some (.dictV d) => convertTagged jd tms d st
    | some .nonDictV => ([], st)
    | none => ([], st)
  else ([], st)

/-- `AgentCoreResponseParser.parse_event` (parser lines 64-124).  `dec` is
the external `bytes.decode("utf-8", errors="ignore")`.  Total by
construction, mirroring the blanket `except` of the source. -/
def parseEvent (jd : String → Option String) (pds : String → Option TopVal)
    (dec : List Nat → String) (tms : Nat) (ev : PyEvent) (st : PState) : List Msg × PState :=
  match ev with
  | .dictE d => convertTagged jd tms d st
  | .strE s => parseLine jd pds tms s st
  | .bytesE bs => parseLine jd pds tms (dec bs) st
  | .otherE => ([], st)

/-- Feeding a sequence of dictionary frames (each with its own capture of
`time.time()`) through one Normalizer instance, concatenating the
outputs. -/
def runConvert (jd : String → Option String) : List (Nat × DataFrame) → PState → List Msg × PState
  | [], st => ([], st)
  | (tms, d) :: rest, st =>
    let r1 := convert jd tms d st
    let r2 := runConvert jd rest r1.2
    (r1.1 ++ r2.1, r2.2)

/-! ## Runtime Bridge

`backend/services/agentcore_client.py`, `AgentCoreClient.invoke_streaming`:
a worker thread (`_invoke_in_thread`) iterates the blocking response in
byte chunks, reassembles lines, decodes `data: ` lines with `json.loads`
and pushes the decoded values onto an asyncio queue; `None` is the
end-of-stream sentinel and an exception object signals abnormal
termination.  The async consumer loop drains the queue. -/

/-- An item the worker thread places on the asyncio queue. -/
inductive QItem
  | ev (v : TopVal)
  | sentinel
  | exc (msg : String)
deriving DecidableEq, Repr

/-- How the upstream iteration terminates: cleanly after all chunks, with
an `http.client.IncompleteRead` after `k` chunks were iterated, or with any
other exception after `k` chunks. -/
inductive Terminal
  | normal
  | incompleteRead (k : Nat)
  | raisedOther (k : Nat) (msg : String)
deriving DecidableEq, Repr

/-- `while b"\n" in buffer: line, buffer = buffer.split(b"\n", 1)` (client
lines 351-352): the complete lines and the carried remainder. -/
def splitNl : Chars → List Chars × Chars
  | [] => ([], [])
  | c :: rest =>
    let r := splitNl rest
    if c = '\n' then (([] : Chars) :: r.1, r.2)
    else
      match r.1 with
      | [] => ([], c :: r.2)
      | l :: ls => ((c :: l) :: ls, r.2)

/-- Per-line handling (client lines 354-412): blank lines are skipped,
`data: ` lines are decoded with `json.loads` (the abstract `jt`; decode
failures are logged and skipped), other lines are ignored. -/
def lineEvents (jt : String → Option TopVal) (ls : List Chars) : List TopVal :=
  ls.filterMap (fun l =>
    let l2 := pyStrip l
    if l2 = [] then none
    else if (lit "data: ").isPrefixOf l2 then jt (String.mk (l2.drop 6))
    else none)

/-- One iteration of `for chunk in response["response"].iter_chunks(...)`
(client lines 318-412): append the chunk, split off complete lines, decode
them. -/
def chunkStep (jt : String → Option TopVal) (st : List TopVal × Chars) (chunk : String) :
    List TopVal × Chars :=
  let r := splitNl (st.2 ++ chunk.data)
  (st.1 ++ lineEvents jt r.1, r.2)

def chunksFold (jt : String → Option TopVal) (chunks : List String) : List TopVal × Chars :=
  chunks.foldl (chunkStep jt) ([], [])

/-- The events delivered to the queue after the first `k` chunks. -/
def deliveredEvents (jt : String → Option TopVal) (chunks : List String) (k : Nat) :
    List TopVal :=
  (chunksFold jt (chunks.take k)).1

/-- The trailing-buffer handling of the clean path (client lines 447-473):
a final line without a newline is still decoded.  Skipped entirely when the
iteration raised, because the `raise` at line 432 jumps past it. -/
def tailEvent (jt : String → Option TopVal) (rem : Chars) : List TopVal :=
  let l := pyStrip rem
  if l ≠ [] ∧ (lit "data: ").isPrefixOf l then
    match jt (String.mk (l.drop 6)) with
    | some v => [v]
    | none => []
  else []

/-- Everything `_invoke_in_thread` places on the queue (client lines
317-559).  The `except IncompleteRead` handler (lines 525-541) enqueues the
`None` sentinel and no exception — irrespective of how many events were
delivered; any other exception is enqueued as a value (lines 543-559). -/
def threadItems (jt : String → Option TopVal) (chunks : List String) (t : Terminal) :
    List QItem :=
  match t with
  | .normal =>
    let r := chunksFold jt chunks
    (r.1 ++ tailEvent jt r.2).map QItem.ev ++ [QItem.sentinel]
  | .incompleteRead k => (deliveredEvents jt chunks k).map QItem.ev ++ [QItem.sentinel]
  | .raisedOther k m => (deliveredEvents jt chunks k).map QItem.ev ++ [QItem.exc m]

/-- The async consumer loop of `invoke_streaming` (client lines 578-638):
yield events until the sentinel ends the stream or an exception value is
re-raised.  An empty item list (which a thread run never produces — its
output always ends in a sentinel or an exception item) is a closed
stream. -/
def consume : List QItem → Except String (List TopVal)
  | [] => .ok []
  | QItem.sentinel :: _ => .ok []
  | QItem.exc m :: _ => .error m
  | QItem.ev v :: rest => (consume rest).map (v :: ·)

/-! ## Query Registry

`backend/api/query_registry.py`, class `QueryRegistry`: a dictionary from
query id to `QueryInfo`, every operation serialized under one asyncio
lock.  The lock and the wall-clock `created_at` are not modelled (the
claims under study are about the map's contents); the shared
`cancel_event` handle is modelled by the orchestrator's cancellation input
below. -/

structure RegInfo where
  session_id : Option String
deriving DecidableEq, Repr

/-- The registry's dictionary, as a map. -/
def Registry := String → Option RegInfo

/-- `register` (query_registry.py lines 27-40): last write wins. -/
def regRegister (r : Registry) (qid : String) (sid : Option String) : Registry :=
  fun k => if k = qid then some ⟨sid⟩ else r k

/-- `unregister` (lines 59-64): delete if present, idempotent. -/
def regUnregister (r : Registry) (qid : String) : Registry :=
  fun k => if k = qid then none else r k

/-! ## Query Orchestrator

`backend/api/agent_provider.py`, `AWSBedrockAgentProvider.query`.  The
external collaborators (quota, permission directory, account storage, chat
storage, account metadata) are modelled by their observed results, one
input field per decision point, so that every branch of the source is
reachable.  The inner `except` around the streaming block and the `finally`
cleanup are modelled structurally; collaborator calls whose failures the
source swallows without yielding (audit, persistence, metrics) produce no
events and are not modelled as failure sources. -/

/-- The events the orchestrator generator yields, as a uniform stream: its
own dictionaries plus every message forwarded from the Normalizer. -/
inductive Ev
  | fromParser (m : Msg)
  | errorEv (content : String)
  | responseEv (content : String)
  | statusEv (status_type : String) (message : String)
  | sessionCreatedEv (sid : String)
  | cancelledEv
  | completeEv (success : Bool)
deriving DecidableEq, Repr

/-- Outcome of the session-binding phase (agent_provider.py lines 292-350).
All its branches end in one of: silent reuse of the supplied session, a
created session announced by one `session_created` event (covering both the
create-with-provided-id and the create-new branches), or no session at all
(ownership rejection or storage failure followed by a failed create; the
source swallows the errors and yields nothing). -/
inductive SessionPlan
  | reuse
  | created (sid : String)
  | failed
deriving DecidableEq, Repr

/-- How the Bridge's event stream ends for the orchestrator: exhausted
cleanly (`StopAsyncIteration`), or `anext` re-raises an exception after the
frames were delivered. -/
inductive StreamEnd
  | clean
  | raised (msg : String)
deriving DecidableEq, Repr

/-- The inputs of one `query` run. `cancelAt = some k` means the shared
cancellation handle is observed set from the arrival of frame `k` onward
(the source checks `cancel_event.is_set()` once per received frame, line
572). -/
structure QueryIn where
  query_id : String := "q"
  session_id : Option String := none
  hasCancelEvent : Bool := true
  quotaOk : Bool := true
  isAdmin : Bool := false
  account_ids : List String := []
  gcp_account_ids : List String := []
  allowedAws : List String := []
  allowedGcp : List String := []
  storageAws : List String := []
  storageGcp : List String := []
  sessionPlan : SessionPlan := SessionPlan.failed
  accountInfo : Option String := none
  frames : List DataFrame := []
  streamEnd : StreamEnd := StreamEnd.clean
  cancelAt : Option Nat := none
  ts : Nat := 0
deriving DecidableEq, Repr

/-- The guidance text of the zero-account branch (agent_provider.py lines
251-267). -/
def guidanceText : String :=
  "❗ **请先配置云账号**\n\n您还没有添加任何云账号。请按以下步骤操作：\n\n**添加 AWS 账号：**\n1. 点击侧边栏的 **\"AWS 账号\"** 按钮\n2. 点击 **\"添加账号\"**\n3. 填写您的 AWS 凭证信息\n\n**添加 GCP 账号：**\n1. 点击侧边栏的 **\"GCP 账号\"** 按钮\n2. 点击 **\"添加账号\"**\n3. 上传您的 GCP Service Account JSON\n\n添加完成后，您就可以开始查询了！\n\n💡 如果需要帮助，请参考文档或联系管理员。"

/-- The permission-error text (lines 193 and 207). -/
def authErrMsg (kind : String) (ids : List String) : String :=
  "❌ 您没有访问以下" ++ kind ++ "账号的权限: " ++ String.intercalate ", " (ids.take 3) ++
    (if ids.length > 3 then "..." else "")

/-- One accumulation step of `assistant_response` (lines 611-614): the
`content` of a `chunk` or `error` message is appended, anything else is
ignored. -/
def msgReplyStep (acc : String) (m : Msg) : String :=
  match m.body with
  | .chunkB c => acc ++ c
  | .errorB c => acc ++ c
  | _ => acc

/-- Contents the orchestrator accumulates into `assistant_response`
(lines 611-614): the `content` of every `chunk` and every `error` message
the Normalizer produced, in order. -/
def assembledOfMsgs (msgs : List Msg) : String :=
  msgs.foldl msgReplyStep ""

/-- Whether the cancellation handle is observed set when frame `i`
arrives. -/
def cancelOn (inp : QueryIn) (i : Nat) : Bool :=
  inp.hasCancelEvent &&
    match inp.cancelAt with
    | some k => decide (k ≤ i)
    | none => false

/-- The streaming loop (lines 554-652): per received frame, first the
cancellation check (ack and break when set), else parse and forward every
resulting message while accumulating `assistant_response`.  Returns the
events, the accumulated reply, whether cancellation fired, and the final
parser state. -/
def streamLoop (jd : String → Option String) (tms : Nat) (inp : QueryIn) :
    List DataFrame → Nat → PState → String → List Ev × String × Bool × PState
  | [], _, st, acc => ([], acc, false, st)
  | f :: rest, i, st, acc =>
    if cancelOn inp i then ([Ev.cancelledEv], acc, true, st)
    else
      let r := convertTagged jd tms f st
      let k := streamLoop jd tms inp rest (i + 1) r.2 (acc ++ assembledOfMsgs r.1)
      (r.1.map Ev.fromParser ++ k.1, k.2)

/-- Unauthorized AWS account ids of the permission check (line 188). -/
def unauthorizedAwsOf (inp : QueryIn) : List String :=
  inp.account_ids.filter (· ∉ inp.allowedAws)

/-- Unauthorized GCP account ids of the permission check (line 202). -/
def unauthorizedGcpOf (inp : QueryIn) : List String :=
  inp.gcp_account_ids.filter (· ∉ inp.allowedGcp)

/-- The AWS accounts visible to the principal (lines 230-241: admins see
all, others the storage list filtered by their authorization). -/
def allAwsOf (inp : QueryIn) : List String :=
  if inp.isAdmin then inp.storageAws else inp.storageAws.filter (· ∈ inp.allowedAws)

/-- The events of the session-binding phase. -/
def sessEvsOf (inp : QueryIn) : List Ev :=
  match inp.sessionPlan with
  | .created sid => [Ev.sessionCreatedEv sid]
  | _ => []

/-- The session id bound for the rest of the run. -/
def sidOf (inp : QueryIn) : Option String :=
  match inp.sessionPlan with
  | .reuse => inp.session_id
  | .created s => some s
  | .failed => none

/-- The account selection (lines 272-289): first explicitly selected AWS
account, else first selected GCP account, else first visible AWS account,
else first visible GCP account; paired with the account type. -/
def selOf (inp : QueryIn) : Option (String × String) :=
  match inp.account_ids with
  | a :: _ => some (a, "aws")
  | [] =>
    match inp.gcp_account_ids with
    | g :: _ => some (g, "gcp")
    | [] =>
      match allAwsOf inp with
      | a :: _ => some (a, "aws")
      | [] =>
        match inp.storageGcp with
        | g :: _ => some (g, "gcp")
        | [] => none

/-- The `initializing` status event (line 353). -/
def initEvC : Ev := Ev.statusEv "initializing" "正在初始化账号连接..."

/-- The streaming loop as `query` enters it: over the query's frames, with
the bound session id, a fresh Normalizer state and an empty reply
accumulator. -/
def queryLoop (jd : String → Option String) (inp : QueryIn) :
    List Ev × String × Bool × PState :=
  streamLoop jd inp.ts inp inp.frames 0 (PState.init (sidOf inp)) ""

/-- The events following the streaming loop: the post-stream `complete`
(lines 654-719), which — by the fall-through after the cancellation `break`
— also runs in the cancelled case; or the error event of the inner
`except` (lines 729-736) when the stream iteration re-raised. -/
def streamTailOf (inp : QueryIn) (assembled : String) (cancelled : Bool) : List Ev :=
  if cancelled then [Ev.completeEv (pyStrip assembled.data ≠ [])]
  else
    match inp.streamEnd with
    | .raised m => [Ev.errorEv ("查询失败: " ++ m)]
    | .clean => [Ev.completeEv (pyStrip assembled.data ≠ [])]

/-- `AWSBedrockAgentProvider.query` (lines 119-749): the full generator,
yielding `Ev`s and transforming the registry.  Registration happens only
when a cancellation handle was supplied (line 159); unregistration is the
`finally` block (line 748). -/
def querySim (jd : String → Option String) (inp : QueryIn) (reg0 : Registry) :
    List Ev × Registry :=
  let reg1 :=
    if inp.hasCancelEvent then regRegister reg0 inp.query_id inp.session_id else reg0
  let body : List Ev :=
    if ¬ inp.quotaOk then [Ev.errorEv "并发查询数达到上限，请等待当前查询完成"]
    else
      if ¬ inp.isAdmin ∧ inp.account_ids ≠ [] ∧ unauthorizedAwsOf inp ≠ [] then
        [Ev.errorEv (authErrMsg "AWS" (unauthorizedAwsOf inp))]
      else if ¬ inp.isAdmin ∧ inp.gcp_account_ids ≠ [] ∧ unauthorizedGcpOf inp ≠ [] then
        [Ev.errorEv (authErrMsg "GCP" (unauthorizedGcpOf inp))]
      else
        if allAwsOf inp = [] ∧ inp.storageGcp = [] then [Ev.responseEv guidanceText]
        else
          match inp.accountInfo with
          | none =>
            sessEvsOf inp ++ [initEvC] ++
              [Ev.errorEv ("获取账号信息失败: " ++
                (if ((selOf inp).map (·.2)).getD "" = "gcp" then
                  "GCP 账号 " ++ ((selOf inp).map (·.1)).getD "None" ++ " 不存在"
                 else
                  "AWS 账号 " ++ ((selOf inp).map (·.1)).getD "None" ++ " 不存在"))]
          | some displayName =>
            let loop := queryLoop jd inp
            sessEvsOf inp ++
              [initEvC,
               Ev.statusEv "processing" ("已连接到 " ++ displayName ++ "，正在启动分析...")] ++
              loop.1 ++ streamTailOf inp loop.2.1 loop.2.2.1
  (body, regUnregister reg1 inp.query_id)

/-! ## Derived observations used by the claims -/

/-- Tool ids of every `tool_call_start` message, corrective updates
included. -/
def allStartIds (msgs : List Msg) : List String :=
  msgs.filterMap (fun m =>
    match m.body with
    | .toolCallStartB tid _ _ _ _ => some tid
    | _ => none)

/-- Tool ids of the `tool_call_start` messages that are not corrective
updates. -/
def nonUpdStartIds (msgs : List Msg) : List String :=
  msgs.filterMap (fun m =>
    match m.body with
    | .toolCallStartB tid _ _ false _ => some tid
    | .toolCallStartB _ _ _ true _ => none
    | _ => none)

/-- Checks, scanning left to right, that every `tool_call_result` message
carries an id some earlier `tool_call_start` (in this list or in `seen`)
already introduced. -/
def resultsMatchedFrom (seen : List String) : List Msg → Bool
  | [] => true
  | m :: rest =>
    match m.body with
    | .toolCallResultB tid _ _ => decide (tid ∈ seen) && resultsMatchedFrom seen rest
    | .toolCallStartB tid _ _ _ _ => resultsMatchedFrom (tid :: seen) rest
    | _ => resultsMatchedFrom seen rest

/-- Claim C4's invariant over one query's message sequence. -/
def resultsMatched (msgs : List Msg) : Bool :=
  resultsMatchedFrom [] msgs

/-- A frame whose `message` part carries no `toolResult` content entry. -/
def noMsgToolResults (d : DataFrame) : Bool :=
  match d.message with
  | none => true
  | some m =>
    m.content.all (fun c =>
      match c with
      | .toolResult _ => false
      | .otherContent => true)

/-- Terminal events per the spec's taxonomy: error, completion, or
cancellation-ack, whether produced by the orchestrator or forwarded from
the Normalizer. -/
def isTerminalEv : Ev → Bool
  | .fromParser m =>
    match m.body with
    | .errorB _ => true
    | .completeB _ _ => true
    | _ => false
  | .errorEv _ => true
  | .completeEv _ => true
  | .cancelledEv => true
  | _ => false

/-- Claim C2 as stated: the output is nonempty, its last event is terminal
and no earlier event is. -/
def endsOneTerminal (out : List Ev) : Bool :=
  match out.getLast? with
  | none => false
  | some e => isTerminalEv e && out.dropLast.all (fun x => !isTerminalEv x)

/-- The reply assembled exclusively from the Normalizer's `chunk` events of
an output stream (the reading of claim C9 as stated). -/
def chunkOnlyAssembled (out : List Ev) : String :=
  out.foldl
    (fun acc e =>
      match e with
      | .fromParser m =>
        match m.body with
        | .chunkB c => acc ++ c
        | _ => acc
      | _ => acc)
    ""

/-- One `assistant_response` accumulation step at the event level: only
the forwarded Normalizer messages contribute, via `msgReplyStep`. -/
def replyStep (acc : String) (e : Ev) : String :=
  match e with
  | .fromParser m =>
    match m.body with
    | .chunkB c => acc ++ c
    | .errorB c => acc ++ c
    | _ => acc
  | _ => acc

/-- The reply the orchestrator actually accumulates (lines 611-614): the
contents of the Normalizer's `chunk` and `error` events, in order. -/
def parserAssembled (out : List Ev) : String :=
  out.foldl replyStep ""

/-! ## Concrete fixtures shared by witnesses and counterexamples -/

/-- A trivial stand-in for `json.loads`: every string fails to decode (so
every parameter value falls back to raw text), enough to exercise the
control flow concretely. -/
def jdNone : String → Option String := fun _ => none

/-- A `json.loads` oracle that accepts every payload, returning it as its
own canonical serialization. -/
def jdEcho : String → Option String := fun s => some s

def jtNone : String → Option TopVal := fun _ => none

def pdsNone : String → Option TopVal := fun _ => none

def decEmpty : List Nat → String := fun _ => ""

def regEmpty : Registry := fun _ => none

/-- A frame carrying one text delta. -/
def textFrame (s : String) : DataFrame :=
  { event := some { contentBlockDelta := some { text := some s } } }

/-- A terminal `messageStop` frame. -/
def stopFrame (r : Option String) : DataFrame :=
  { event := some { messageStop := some r } }

/-- An explicit error frame. -/
def errFrame (e : String) : DataFrame := { error := some e }

/-- A `message` frame carrying one `toolResult` with the given upstream
id. -/
def msgResultFrame (tid : String) : DataFrame :=
  { message := some { role := some "assistant",
                      content := [MContent.toolResult { toolUseId := tid }] } }

/-- An invoke block followed by a stray (orphan) parameter tag — the
upstream malformation the parser compensates for. -/
def invokeOrphanText : String :=
  "<invoke name=\"t\"><parameter name=\"a\">1</parameter></invoke><parameter name=\"b\">2</parameter>"

/-- Orchestrator input: cancellation observed from the second frame on. -/
def inpCancelMid : QueryIn := {
  query_id := "q1"
  storageAws := ["acc1"]
  allowedAws := ["acc1"]
  sessionPlan := SessionPlan.reuse
  accountInfo := some "acct"
  frames := [textFrame "Hello", textFrame " again"]
  cancelAt := some 1
}

/-- Orchestrator input: the stream consists of one upstream error frame and
ends cleanly. -/
def inpErrorOnly : QueryIn := {
  query_id := "q2"
  storageAws := ["acc1"]
  allowedAws := ["acc1"]
  accountInfo := some "acct"
  frames := [errFrame "x"]
}

/-! ## Supporting lemmas for the bridge -/

theorem consume_map_ev_sentinel (l : List TopVal) :
    consume (l.map QItem.ev ++ [QItem.sentinel]) = Except.ok l := by
  induction l with
  | nil => rfl
  | cons v rest ih => simp [consume, ih, Except.map]

theorem consume_map_ev_exc (l : List TopVal) (m : String) :
    consume (l.map QItem.ev ++ [QItem.exc m]) = Except.error m := by
  induction l with
  | nil => rfl
  | cons v rest ih => simp [consume, ih, Except.map]

/-! ## Supporting lemmas for the orchestrator -/

theorem streamLoop_cancelled_ack (jd : String → Option String) (tms : Nat) (inp : QueryIn) :
    ∀ (fs : List DataFrame) (i : Nat) (st : PState) (acc : String),
      (streamLoop jd tms inp fs i st acc).2.2.1 = true →
      ∃ pre, (streamLoop jd tms inp fs i st acc).1 = pre ++ [Ev.cancelledEv] := by
  intro fs
  induction fs with
  | nil => intro i st acc h; simp [streamLoop] at h
  | cons f rest ih =>
    intro i st acc h
    by_cases hc : cancelOn inp i
    · exact ⟨[], by simp [streamLoop, hc]⟩
    · simp only [streamLoop, if_neg hc] at h ⊢
      obtain ⟨pre, hpre⟩ := ih _ _ _ h
      exact ⟨_ ++ pre, by rw [hpre, List.append_assoc]⟩

theorem replyStep_shift (s : String) (e : Ev) : replyStep s e = s ++ replyStep "" e := by
  cases e with
  | fromParser m =>
    obtain ⟨b, ts, sid⟩ := m
    cases b <;> simp [replyStep, String.append_empty, String.empty_append]
  | errorEv c => simp [replyStep, String.append_empty]
  | responseEv c => simp [replyStep, String.append_empty]
  | statusEv a b => simp [replyStep, String.append_empty]
  | sessionCreatedEv s => simp [replyStep, String.append_empty]
  | cancelledEv => simp [replyStep, String.append_empty]
  | completeEv s => simp [replyStep, String.append_empty]

theorem foldl_replyStep_shift (l : List Ev) :
    ∀ s, List.foldl replyStep s l = s ++ List.foldl replyStep "" l := by
  induction l with
  | nil => intro s; simp [String.append_empty]
  | cons e rest ih =>
    intro s
    simp only [List.foldl_cons]
    rw [ih (replyStep s e), ih (replyStep "" e), replyStep_shift s e, String.append_assoc]

theorem parserAssembled_append (a b : List Ev) :
    parserAssembled (a ++ b) = parserAssembled a ++ parserAssembled b := by
  simp only [parserAssembled, List.foldl_append]
  rw [foldl_replyStep_shift b (List.foldl replyStep "" a)]

theorem replyStep_fromParser (s : String) (m : Msg) :
    replyStep s (Ev.fromParser m) = msgReplyStep s m := by
  obtain ⟨b, ts, sid⟩ := m
  cases b <;> rfl

theorem parserAssembled_map_fromParser (msgs : List Msg) :
    parserAssembled (msgs.map Ev.fromParser) = assembledOfMsgs msgs := by
  simp only [parserAssembled, assembledOfMsgs]
  have h : ∀ (l : List Msg) (s : String),
      List.foldl replyStep s (l.map Ev.fromParser) = List.foldl msgReplyStep s l := by
    intro l
    induction l with
    | nil => intro s; rfl
    | cons m rest ih =>
      intro s
      simp only [List.map_cons, List.foldl_cons, replyStep_fromParser]
      exact ih _
  exact h msgs ""

theorem streamLoop_assembled (jd : String → Option String) (tms : Nat) (inp : QueryIn) :
    ∀ (fs : List DataFrame) (i : Nat) (st : PState) (acc : String),
      (streamLoop jd tms inp fs i st acc).2.1 =
        acc ++ parserAssembled (streamLoop jd tms inp fs i st acc).1 := by
  intro fs
  induction fs with
  | nil => intro i st acc; simp [streamLoop, parserAssembled, String.append_empty]
  | cons f rest ih =>
    intro i st acc
    by_cases hc : cancelOn inp i
    · simp [streamLoop, hc, parserAssembled, replyStep, String.append_empty]
    · simp only [streamLoop, if_neg hc]
      rw [ih, parserAssembled_append, parserAssembled_map_fromParser, String.append_assoc]

theorem querySim_quota_shape (jd : String → Option String) (inp : QueryIn) (reg0 : Registry)
    (hq : ¬ inp.quotaOk) :
    (querySim jd inp reg0).1 = [Ev.errorEv "并发查询数达到上限，请等待当前查询完成"] := by
  simp [querySim, hq]

theorem querySim_permAws_shape (jd : String → Option String) (inp : QueryIn) (reg0 : Registry)
    (hq : inp.quotaOk)
    (hA : ¬ inp.isAdmin ∧ inp.account_ids ≠ [] ∧ unauthorizedAwsOf inp ≠ []) :
    (querySim jd inp reg0).1 = [Ev.errorEv (authErrMsg "AWS" (unauthorizedAwsOf inp))] := by
  simp [querySim, hq, hA.1, hA.2.1, hA.2.2]

theorem querySim_permGcp_shape (jd : String → Option String) (inp : QueryIn) (reg0 : Registry)
    (hq : inp.quotaOk)
    (hA : ¬ (¬ inp.isAdmin ∧ inp.account_ids ≠ [] ∧ unauthorizedAwsOf inp ≠ []))
    (hG : ¬ inp.isAdmin ∧ inp.gcp_account_ids ≠ [] ∧ unauthorizedGcpOf inp ≠ []) :
    (querySim jd inp reg0).1 = [Ev.errorEv (authErrMsg "GCP" (unauthorizedGcpOf inp))] := by
  simp only [querySim, regUnregister]
  rw [if_neg (by simp [hq]), if_neg hA, if_pos hG]

theorem querySim_guidance_shape (jd : String → Option String) (inp : QueryIn) (reg0 : Registry)
    (hq : inp.quotaOk)
    (hA : ¬ (¬ inp.isAdmin ∧ inp.account_ids ≠ [] ∧ unauthorizedAwsOf inp ≠ []))
    (hG : ¬ (¬ inp.isAdmin ∧ inp.gcp_account_ids ≠ [] ∧ unauthorizedGcpOf inp ≠ []))
    (hZ : allAwsOf inp = [] ∧ inp.storageGcp = []) :
    (querySim jd inp reg0).1 = [Ev.responseEv guidanceText] := by
  simp only [querySim, regUnregister]
  rw [if_neg (by simp [hq]), if_neg hA, if_neg hG, if_pos hZ]

theorem querySim_infoFail_shape (jd : String → Option String) (inp : QueryIn) (reg0 : Registry)
    (hq : inp.quotaOk)
    (hA : ¬ (¬ inp.isAdmin ∧ inp.account_ids ≠ [] ∧ unauthorizedAwsOf inp ≠ []))
    (hG : ¬ (¬ inp.isAdmin ∧ inp.gcp_account_ids ≠ [] ∧ unauthorizedGcpOf inp ≠ []))
    (hZ : ¬ (allAwsOf inp = [] ∧ inp.storageGcp = []))
    (hI : inp.accountInfo = none) :
    (querySim jd inp reg0).1 =
      sessEvsOf inp ++ [initEvC] ++
        [Ev.errorEv ("获取账号信息失败: " ++
          (if ((selOf inp).map (·.2)).getD "" = "gcp" then
            "GCP 账号 " ++ ((selOf inp).map (·.1)).getD "None" ++ " 不存在"
           else
            "AWS 账号 " ++ ((selOf inp).map (·.1)).getD "None" ++ " 不存在"))] := by
  simp only [querySim, regUnregister]
  rw [if_neg (by simp [hq]), if_neg hA, if_neg hG, if_neg hZ, hI]

theorem querySim_stream_shape (jd : String → Option String) (inp : QueryIn) (reg0 : Registry)
    (dn : String) (hq : inp.quotaOk)
    (hA : ¬ (¬ inp.isAdmin ∧ inp.account_ids ≠ [] ∧ unauthorizedAwsOf inp ≠ []))
    (hG : ¬ (¬ inp.isAdmin ∧ inp.gcp_account_ids ≠ [] ∧ unauthorizedGcpOf inp ≠ []))
    (hZ : ¬ (allAwsOf inp = [] ∧ inp.storageGcp = []))
    (hI : inp.accountInfo = some dn) :
    (querySim jd inp reg0).1 =
      sessEvsOf inp ++
        [initEvC, Ev.statusEv "processing" ("已连接到 " ++ dn ++ "，正在启动分析...")] ++
        (queryLoop jd inp).1 ++
        streamTailOf inp (queryLoop jd inp).2.1 (queryLoop jd inp).2.2.1 := by
  simp only [querySim, regUnregister]
  rw [if_neg (by simp [hq]), if_neg hA, if_neg hG, if_neg hZ, hI]

/-! ## Claim theorems -/

set_option maxRecDepth 100000

/-- C1, counterexample.  The claim as stated says a truncation fault
(`IncompleteRead`) with zero frames delivered is a hard failure raised to
the consumer.  At the concrete input of an upstream exchange that delivers
no chunks at all and then faults with `IncompleteRead`, the worker thread's
handler (client lines 525-541) still enqueues the sentinel and no
exception, so the consumer ends cleanly with the empty event list instead
of an error. -/
theorem c1_zero_frame_truncation_counterexample :
    ¬ (deliveredEvents jtNone [] 0 = [] →
        ∃ e, consume (threadItems jtNone [] (Terminal.incompleteRead 0)) = Except.error e) := by
  intro h
  rcases h rfl with ⟨e, he⟩
  have hok : consume (threadItems jtNone [] (Terminal.incompleteRead 0)) = Except.ok [] := rfl
  rw [hok] at he
  exact Except.noConfusion he

/-- C1, amended.  A transport truncation fault (`IncompleteRead`) at any
point — after many frames or after none — is treated as soft end-of-stream:
the consumer's iteration ends with exactly the already-delivered frames and
no exception.  Any other exception of the worker is re-raised to the
consumer after the delivered frames, and a clean exchange delivers every
decoded event including one from a trailing unterminated line. -/
theorem c1_truncation_policy (jt : String → Option TopVal) (chunks : List String)
    (k : Nat) (m : String) :
    consume (threadItems jt chunks (Terminal.incompleteRead k)) =
      Except.ok (deliveredEvents jt chunks k) ∧
    consume (threadItems jt chunks (Terminal.raisedOther k m)) = Except.error m ∧
    consume (threadItems jt chunks Terminal.normal) =
      Except.ok ((chunksFold jt chunks).1 ++ tailEvent jt (chunksFold jt chunks).2) := by
  refine ⟨?_, ?_, ?_⟩
  · simp [threadItems, consume_map_ev_sentinel]
  · simp [threadItems, consume_map_ev_exc]
  · have h := consume_map_ev_sentinel
      ((chunksFold jt chunks).1 ++ tailEvent jt (chunksFold jt chunks).2)
    simpa [threadItems, List.map_append, List.append_assoc] using h

/-- C2, counterexample.  The claim as stated says the yielded sequence ends
with exactly one terminal event, and in particular that nothing follows a
cancellation-ack.  At the concrete run `inpCancelMid` (cancellation
observed after the first frame) the `break` of agent_provider.py line 591
falls through to the post-stream epilogue (line 654), which still emits a
`complete` event, so the ack is followed by a completion. -/
theorem c2_terminal_event_counterexample :
    endsOneTerminal (querySim jdNone inpCancelMid regEmpty).1 = false ∧
    Ev.cancelledEv ∈ (querySim jdNone inpCancelMid regEmpty).1 ∧
    (querySim jdNone inpCancelMid regEmpty).1.getLast? = some (Ev.completeEv true) := by
  refine ⟨by decide, by decide, by decide⟩

/-- C2, amended.  Each branch of the orchestrator closes its output in a
branch-determined way, but not with "exactly one terminal event, the ack
last under cancellation" as claimed: the quota, permission and account-info
failures end with one error event; the zero-account branch ends with the
guidance response and no terminal event at all; when the streaming phase
runs, a cancellation ack is immediately *followed* by the final `complete`
event (the `break` falls through to the epilogue), a cleanly ended stream
closes with `complete`, and a stream that re-raised closes with the
`查询失败` error event. -/
theorem c2_closing_event (jd : String → Option String) (inp : QueryIn) (reg0 : Registry)
    (dn m : String) :
    (¬ inp.quotaOk → (querySim jd inp reg0).1.getLast? =
        some (Ev.errorEv "并发查询数达到上限，请等待当前查询完成")) ∧
    (inp.quotaOk → (¬ inp.isAdmin ∧ inp.account_ids ≠ [] ∧ unauthorizedAwsOf inp ≠ []) →
        (querySim jd inp reg0).1.getLast? =
          some (Ev.errorEv (authErrMsg "AWS" (unauthorizedAwsOf inp)))) ∧
    (inp.quotaOk → ¬ (¬ inp.isAdmin ∧ inp.account_ids ≠ [] ∧ unauthorizedAwsOf inp ≠ []) →
        (¬ inp.isAdmin ∧ inp.gcp_account_ids ≠ [] ∧ unauthorizedGcpOf inp ≠ []) →
        (querySim jd inp reg0).1.getLast? =
          some (Ev.errorEv (authErrMsg "GCP" (unauthorizedGcpOf inp)))) ∧
    (inp.quotaOk → ¬ (¬ inp.isAdmin ∧ inp.account_ids ≠ [] ∧ unauthorizedAwsOf inp ≠ []) →
        ¬ (¬ inp.isAdmin ∧ inp.gcp_account_ids ≠ [] ∧ unauthorizedGcpOf inp ≠ []) →
        (allAwsOf inp = [] ∧ inp.storageGcp = []) →
        (querySim jd inp reg0).1 = [Ev.responseEv guidanceText]) ∧
    (inp.quotaOk → ¬ (¬ inp.isAdmin ∧ inp.account_ids ≠ [] ∧ unauthorizedAwsOf inp ≠ []) →
        ¬ (¬ inp.isAdmin ∧ inp.gcp_account_ids ≠ [] ∧ unauthorizedGcpOf inp ≠ []) →
        ¬ (allAwsOf inp = [] ∧ inp.storageGcp = []) →
        inp.accountInfo = none →
        (querySim jd inp reg0).1.getLast? =
          some (Ev.errorEv ("获取账号信息失败: " ++
            (if ((selOf inp).map (·.2)).getD "" = "gcp" then
              "GCP 账号 " ++ ((selOf inp).map (·.1)).getD "None" ++ " 不存在"
             else
              "AWS 账号 " ++ ((selOf inp).map (·.1)).getD "None" ++ " 不存在")))) ∧
    (inp.quotaOk → ¬ (¬ inp.isAdmin ∧ inp.account_ids ≠ [] ∧ unauthorizedAwsOf inp ≠ []) →
        ¬ (¬ inp.isAdmin ∧ inp.gcp_account_ids ≠ [] ∧ unauthorizedGcpOf inp ≠ []) →
        ¬ (allAwsOf inp = [] ∧ inp.storageGcp = []) →
        inp.accountInfo = some dn →
        (((queryLoop jd inp).2.2.1 = true →
            ∃ pre, (querySim jd inp reg0).1 =
              pre ++ [Ev.cancelledEv,
                Ev.completeEv (pyStrip (queryLoop jd inp).2.1.data ≠ [])]) ∧
         ((queryLoop jd inp).2.2.1 = false → inp.streamEnd = StreamEnd.clean →
            (querySim jd inp reg0).1.getLast? =
              some (Ev.completeEv (pyStrip (queryLoop jd inp).2.1.data ≠ []))) ∧
         ((queryLoop jd inp).2.2.1 = false → inp.streamEnd = StreamEnd.raised m →
            (querySim jd inp reg0).1.getLast? =
              some (Ev.errorEv ("查询失败: " ++ m))))) := by
  refine ⟨?_, ?_, ?_, ?_, ?_, ?_⟩
  · intro hq; simp [querySim_quota_shape jd inp reg0 hq]
  · intro hq hA; simp [querySim_permAws_shape jd inp reg0 hq hA]
  · intro hq hA hG; simp [querySim_permGcp_shape jd inp reg0 hq hA hG]
  · intro hq hA hG hZ; exact querySim_guidance_shape jd inp reg0 hq hA hG hZ
  · intro hq hA hG hZ hI
    rw [querySim_infoFail_shape jd inp reg0 hq hA hG hZ hI]
    simp
  · intro hq hA hG hZ hI
    have hs := querySim_stream_shape jd inp reg0 dn hq hA hG hZ hI
    refine ⟨?_, ?_, ?_⟩
    · intro hc
      obtain ⟨pre, hpre⟩ := streamLoop_cancelled_ack jd inp.ts inp inp.frames 0
        (PState.init (sidOf inp)) "" hc
      refine ⟨sessEvsOf inp ++
        [initEvC, Ev.statusEv "processing" ("已连接到 " ++ dn ++ "，正在启动分析...")] ++ pre, ?_⟩
      rw [hs]
      show _ ++ (queryLoop jd inp).1 ++ _ = _
      rw [show (queryLoop jd inp).1 = pre ++ [Ev.cancelledEv] from hpre]
      simp [streamTailOf, hc]
    · intro hc hclean
      rw [hs]
      have ht : streamTailOf inp (queryLoop jd inp).2.1 (queryLoop jd inp).2.2.1 =
          [Ev.completeEv (pyStrip (queryLoop jd inp).2.1.data ≠ [])] := by
        simp [streamTailOf, hc, hclean]
      rw [ht, List.getLast?_concat]
    · intro hc hraise
      rw [hs]
      have ht : streamTailOf inp (queryLoop jd inp).2.1 (queryLoop jd inp).2.2.1 =
          [Ev.errorEv ("查询失败: " ++ m)] := by
        simp [streamTailOf, hc, hraise]
      rw [ht, List.getLast?_concat]

theorem c2_closing_event_witness :
    inpErrorOnly.quotaOk = true ∧ inpErrorOnly.streamEnd = StreamEnd.clean ∧
    (queryLoop jdNone inpErrorOnly).2.2.1 = false ∧
    (querySim jdNone inpErrorOnly regEmpty).1.getLast? =
      some (Ev.completeEv (pyStrip (queryLoop jdNone inpErrorOnly).2.1.data ≠ [])) :=
  ⟨rfl, rfl, by decide,
   ((c2_closing_event jdNone inpErrorOnly regEmpty "acct" "").2.2.2.2.2 rfl
      (by decide) (by decide) (by decide) rfl).2.1 (by decide) rfl⟩

/-- C3, counterexample.  The claim as stated says all `tool_call_start`
events of one query carry pairwise distinct ids.  On a frame whose text is
an invoke block followed by a stray parameter tag, the parser emits the
block's `tool_call_start` and then the corrective update re-emission
(parser lines 461-473) with the *same* tool id, so the ids are not
pairwise distinct. -/
theorem c3_duplicate_id_counterexample :
    ¬ (allStartIds (convert jdNone 5 (textFrame invokeOrphanText) (PState.init none)).1).Nodup ∧
    allStartIds (convert jdNone 5 (textFrame invokeOrphanText) (PState.init none)).1 =
      ["tool_t_\"a\":\"1\"_5000", "tool_t_\"a\":\"1\"_5000"] := by
  refine ⟨by decide, by decide⟩

/-- C4, counterexample.  The claim as stated says every `tool_call_result`
is preceded by a `tool_call_start` with the same id in the same sequence.
A `message` frame carrying a `toolResult` (parser lines 646-754) forwards
the upstream `toolUseId` without consulting any emitted-id bookkeeping, so
a query consisting of that single frame outputs a result with no prior
start. -/
theorem c4_unmatched_result_counterexample :
    resultsMatched (convert jdNone 3 (msgResultFrame "x") (PState.init none)).1 = false ∧
    (convert jdNone 3 (msgResultFrame "x") (PState.init none)).1 =
      [⟨.toolCallResultB "x" RVal.emptyObj "success", 3, none⟩] := by
  refine ⟨by decide, by decide⟩

/-- C6, counterexample.  The claim as stated says splitting an invoke
block's text across frames yields the same final event sequence as one
frame, independent of the split point.  Splitting strictly inside the
literal `<invoke` (here `A<inv` + `oke name="t"></invoke>`) defeats the
partial-marker retention (parser line 498 looks for the full substring
`<invoke`): the fragments are flushed as plain chunks, no tool call is
recognized, and the event sequences differ. -/
theorem c6_split_marker_counterexample :
    (runConvert jdNone [(7, textFrame "A<invoke name=\"t\"></invoke>")] (PState.init none)).1 ≠
      (runConvert jdNone [(7, textFrame "A<inv"), (7, textFrame "oke name=\"t\"></invoke>")]
        (PState.init none)).1 ∧
    allStartIds
      (runConvert jdNone [(7, textFrame "A<invoke name=\"t\"></invoke>")] (PState.init none)).1 =
      ["tool_t__7000"] ∧
    allStartIds
      (runConvert jdNone [(7, textFrame "A<inv"), (7, textFrame "oke name=\"t\"></invoke>")]
        (PState.init none)).1 = [] := by
  refine ⟨by decide, by decide, by decide⟩

/-- C7, counterexample.  The claim as stated says feeding the same complete
frame twice produces at most one `tool_call_start` per unique id.  For a
frame containing an entire invoke block followed by a stray parameter tag,
already the first parse emits two `tool_call_start` events with the same id
(the corrective update, parser lines 461-473); the second parse of the
identical frame adds none, leaving a total of two for that id. -/
theorem c7_twice_parse_counterexample :
    (allStartIds
        ((convert jdNone 5 (textFrame invokeOrphanText) (PState.init none)).1 ++
          (convert jdNone 5 (textFrame invokeOrphanText)
            (convert jdNone 5 (textFrame invokeOrphanText) (PState.init none)).2).1)).count
      "tool_t_\"a\":\"1\"_5000" = 2 := by
  decide

/-- C9, counterexample.  The claim as stated says that when the reply
assembled from the streamed chunk contents is empty or whitespace-only, the
final completion has success=false.  On a stream consisting of one upstream
error frame, no chunks are produced, yet `assistant_response` (line 613)
also accumulates error contents, so the run ends with `complete`
success=true. -/
theorem c9_empty_chunks_counterexample :
    pyStrip (chunkOnlyAssembled (querySim jdNone inpErrorOnly regEmpty).1).data = [] ∧
    (querySim jdNone inpErrorOnly regEmpty).1.getLast? = some (Ev.completeEv true) := by
  refine ⟨by decide, by decide⟩

/-- C9, amended.  The claim fails as stated because `assistant_response`
(agent_provider.py lines 611-614) accumulates the contents of the
Normalizer's `error` events alongside the `chunk` events (the
counterexample shows an error-only stream completing with success=true
though no chunk was streamed).  What holds: on a cleanly drained,
uncancelled stream the final `complete` event's success flag is exactly
"the reply assembled from the chunk *and* error contents of the output is
not empty or whitespace-only". -/
theorem c9_complete_success_flag (jd : String → Option String) (inp : QueryIn)
    (reg0 : Registry) (dn : String)
    (hq : inp.quotaOk)
    (hA : ¬ (¬ inp.isAdmin ∧ inp.account_ids ≠ [] ∧ unauthorizedAwsOf inp ≠ []))
    (hG : ¬ (¬ inp.isAdmin ∧ inp.gcp_account_ids ≠ [] ∧ unauthorizedGcpOf inp ≠ []))
    (hZ : ¬ (allAwsOf inp = [] ∧ inp.storageGcp = []))
    (hI : inp.accountInfo = some dn)
    (hnc : (queryLoop jd inp).2.2.1 = false)
    (hclean : inp.streamEnd = StreamEnd.clean) :
    (querySim jd inp reg0).1.getLast? =
      some (Ev.completeEv
        (pyStrip (parserAssembled (querySim jd inp reg0).1).data ≠ [])) := by
  have hs := querySim_stream_shape jd inp reg0 dn hq hA hG hZ hI
  have ht : streamTailOf inp (queryLoop jd inp).2.1 (queryLoop jd inp).2.2.1 =
      [Ev.completeEv (pyStrip (queryLoop jd inp).2.1.data ≠ [])] := by
    simp [streamTailOf, hnc, hclean]
  have hacc : (queryLoop jd inp).2.1 = parserAssembled (queryLoop jd inp).1 := by
    have h := streamLoop_assembled jd inp.ts inp inp.frames 0 (PState.init (sidOf inp)) ""
    simpa [queryLoop, String.empty_append] using h
  have hpa : parserAssembled (querySim jd inp reg0).1 =
      parserAssembled (queryLoop jd inp).1 := by
    rw [hs, ht, parserAssembled_append, parserAssembled_append, parserAssembled_append]
    have h1 : parserAssembled (sessEvsOf inp) = "" := by
      cases hp : inp.sessionPlan <;> simp [sessEvsOf, hp, parserAssembled, replyStep]
    have h2 : parserAssembled
        [initEvC, Ev.statusEv "processing" ("已连接到 " ++ dn ++ "，正在启动分析...")] = "" := by
      simp [parserAssembled, replyStep, initEvC]
    have h3 : parserAssembled
        [Ev.completeEv (pyStrip (queryLoop jd inp).2.1.data ≠ [])] = "" := by
      simp [parserAssembled, replyStep]
    rw [h1, h2, h3, String.empty_append, String.empty_append, String.append_empty]
  rw [hpa, ← hacc, hs, ht, List.getLast?_concat]

theorem c9_complete_success_flag_witness :
    pyStrip (parserAssembled (querySim jdNone inpErrorOnly regEmpty).1).data ≠ [] ∧
    (querySim jdNone inpErrorOnly regEmpty).1.getLast? =
      some (Ev.completeEv
        (pyStrip (parserAssembled (querySim jdNone inpErrorOnly regEmpty).1).data ≠ [])) :=
  ⟨by decide,
   c9_complete_success_flag jdNone inpErrorOnly regEmpty "acct" rfl
     (by decide) (by decide) (by decide) rfl (by decide) rfl⟩

/-- C5: for every query run, whatever branch it takes and however its
stream ends, once the generator is exhausted the registry holds no entry
for the query id: the `finally` block (agent_provider.py line 748) performs
the `unregister` (query_registry.py lines 59-64) unconditionally. -/
theorem c5_registry_cleanup (jd : String → Option String) (inp : QueryIn) (reg : Registry) :
    (querySim jd inp reg).2 inp.query_id = none := by
  simp [querySim, regUnregister]

/-- C8: on a terminal `messageStop` frame the Normalizer first drains any
buffered text as a final chunk, and emits `complete` with success=true
exactly for the genuine end-of-turn stop reasons (`end_turn`, `max_tokens`,
`stop_sequence`); for `tool_use` and for unknown stop reasons no `complete`
is emitted.  In particular the frames `delta.text="Hello "`,
`delta.text="world"`, then `end_turn` yield chunk("Hello "),
chunk("world"), complete(success=true). -/
theorem c8_message_stop_complete :
    (∀ (jd : String → Option String) (tms : Nat) (r : Option String) (st : PState),
      convert jd tms (stopFrame r) st =
        ((if st.buffer ≠ [] then [⟨.chunkB (String.mk st.buffer), tms, none⟩] else []) ++
          (if r = some "end_turn" ∨ r = some "max_tokens" ∨ r = some "stop_sequence" then
            [⟨.completeB r true, tms, none⟩]
          else []),
         { st with buffer := [] })) ∧
    (runConvert jdNone
        [(1, textFrame "Hello "), (2, textFrame "world"), (3, stopFrame (some "end_turn"))]
        (PState.init none)).1 =
      [⟨.chunkB "Hello ", 1, none⟩, ⟨.chunkB "world", 2, none⟩,
       ⟨.completeB (some "end_turn") true, 3, none⟩] ∧
    (convert jdNone 4 (stopFrame (some "tool_use")) (PState.init none)).1 = [] ∧
    (convert jdNone 4 (stopFrame (some "unknown_reason")) (PState.init none)).1 = [] := by
  refine ⟨?_, by decide, by decide, by decide⟩
  intro jd tms r st
  by_cases hr : r = some "end_turn" ∨ r = some "max_tokens" ∨ r = some "stop_sequence" <;>
    by_cases hb : st.buffer = [] <;>
    simp [convert, stopFrame, msgStopStep, andThen, andState, eventStep, hr, hb]

/-- C10: `parse_event` is total at the public interface — the shallow
embedding returns a message list and a state for every input class — and
the degenerate inputs yield the empty list with the state untouched: inputs
of unexpected type, strings that are empty after stripping, strings without
the `data: ` prefix, payloads `_parse_data_string` cannot decode, and
decoded payloads that are not dictionaries.  The bytes path is the string
path applied to the decoded bytes. -/
theorem c10_parse_event_total :
    (∀ (jd : String → Option String) (pds : String → Option TopVal) (dec : List Nat → String)
        (tms : Nat) (st : PState),
      parseEvent jd pds dec tms PyEvent.otherE st = ([], st)) ∧
    (∀ (jd : String → Option String) (pds : String → Option TopVal) (dec : List Nat → String)
        (tms : Nat) (s : String) (st : PState), pyStrip s.data = [] →
      parseEvent jd pds dec tms (PyEvent.strE s) st = ([], st)) ∧
    (∀ (jd : String → Option String) (pds : String → Option TopVal) (dec : List Nat → String)
        (tms : Nat) (s : String) (st : PState),
      (lit "data: ").isPrefixOf (pyStrip s.data) = false →
      parseEvent jd pds dec tms (PyEvent.strE s) st = ([], st)) ∧
    (∀ (jd : String → Option String) (pds : String → Option TopVal) (dec : List Nat → String)
        (tms : Nat) (s : String) (st : PState),
      pds (String.mk ((pyStrip s.data).drop 6)) = none →
      parseEvent jd pds dec tms (PyEvent.strE s) st = ([], st)) ∧
    (∀ (jd : String → Option String) (pds : String → Option TopVal) (dec : List Nat → String)
        (tms : Nat) (s : String) (st : PState),
      pds (String.mk ((pyStrip s.data).drop 6)) = some TopVal.nonDictV →
      parseEvent jd pds dec tms (PyEvent.strE s) st = ([], st)) ∧
    (∀ (jd : String → Option String) (pds : String → Option TopVal) (dec : List Nat → String)
        (tms : Nat) (bs : List Nat) (st : PState),
      parseEvent jd pds dec tms (PyEvent.bytesE bs) st =
        parseEvent jd pds dec tms (PyEvent.strE (dec bs)) st) := by
  refine ⟨fun _ _ _ _ _ => rfl, ?_, ?_, ?_, ?_, fun _ _ _ _ _ _ => rfl⟩
  · intro jd pds dec tms s st h
    simp [parseEvent, parseLine, h]
  · intro jd pds dec tms s st h
    by_cases he : pyStrip s.data = [] <;> simp [parseEvent, parseLine, he, h]
  · intro jd pds dec tms s st h
    by_cases he : pyStrip s.data = [] <;>
      by_cases hp : (lit "data: ").isPrefixOf (pyStrip s.data) <;>
      simp [parseEvent, parseLine, he, hp, h]
  · intro jd pds dec tms s st h
    by_cases he : pyStrip s.data = [] <;>
      by_cases hp : (lit "data: ").isPrefixOf (pyStrip s.data) <;>
      simp [parseEvent, parseLine, he, hp, h]

/-- C10, witness: the degenerate-input clauses of `c10_parse_event_total`
applied at concrete inputs (a whitespace-only string and a string without
the `data: ` prefix). -/
theorem c10_parse_event_total_witness :
    pyStrip (String.data " ") = [] ∧
    parseEvent jdNone pdsNone decEmpty 0 (PyEvent.strE " ") (PState.init none) =
      ([], PState.init none) ∧
    (lit "data: ").isPrefixOf (pyStrip (String.data "hello")) = false ∧
    parseEvent jdNone pdsNone decEmpty 0 (PyEvent.strE "hello") (PState.init none) =
      ([], PState.init none) :=
  ⟨by decide,
   c10_parse_event_total.2.1 jdNone pdsNone decEmpty 0 " " (PState.init none) (by decide),
   by decide,
   c10_parse_event_total.2.2.1 jdNone pdsNone decEmpty 0 "hello" (PState.init none) (by decide)⟩

/-! ## The emitted-id bookkeeping invariants of the Normalizer -/

/-- Messages the invoke-block loop can produce. -/
def isChunkOrStart (m : Msg) : Bool :=
  match m.body with
  | .chunkB _ => true
  | .toolCallStartB _ _ _ _ _ => true
  | _ => false

@[simp] theorem allStartIds_append (a b : List Msg) :
    allStartIds (a ++ b) = allStartIds a ++ allStartIds b := by
  simp [allStartIds]

@[simp] theorem nonUpdStartIds_append (a b : List Msg) :
    nonUpdStartIds (a ++ b) = nonUpdStartIds a ++ nonUpdStartIds b := by
  simp [nonUpdStartIds]

theorem mem_insertSent {s : List String} {tid x : String} :
    x ∈ insertSent s tid ↔ x = tid ∨ x ∈ s := by
  by_cases h : tid ∈ s
  · simp only [insertSent, if_pos h]
    constructor
    · exact fun hx => Or.inr hx
    · rintro (rfl | hx)
      · exact h
      · exact hx
  · simp [insertSent, if_neg h]

theorem mapVals_insertOrdered {m : List (String × String)} {k v : String} {x : String}
    (h : x ∈ (insertOrdered m k v).map Prod.snd) :
    x = v ∨ x ∈ m.map Prod.snd := by
  induction m with
  | nil => simpa [insertOrdered] using h
  | cons kv rest ih =>
    by_cases hk : kv.1 = k
    · simp only [insertOrdered, hk, if_pos rfl] at h
      simp at h
      rcases h with h | h
      · exact Or.inl h
      · exact Or.inr (by simp [h])
    · simp only [insertOrdered, if_neg hk] at h
      simp at h
      rcases h with h | h
      · exact Or.inr (by simp [h])
      · rcases ih (by simpa using h) with h' | h'
        · exact Or.inl h'
        · exact Or.inr (by simp at h' ⊢; exact Or.inr h')

@[simp] theorem allStartIds_nil : allStartIds [] = [] := rfl

@[simp] theorem allStartIds_chunk_cons (s : String) (t : Nat) (sid : Option String)
    (rest : List Msg) :
    allStartIds (⟨.chunkB s, t, sid⟩ :: rest) = allStartIds rest := by
  simp [allStartIds]

@[simp] theorem allStartIds_start_cons (tid n : String) (a : AVal) (u : Bool)
    (ds : Option String) (t : Nat) (sid : Option String) (rest : List Msg) :
    allStartIds (⟨.toolCallStartB tid n a u ds, t, sid⟩ :: rest) = tid :: allStartIds rest := by
  simp [allStartIds]

@[simp] theorem nonUpdStartIds_nil : nonUpdStartIds [] = [] := rfl

@[simp] theorem nonUpdStartIds_chunk_cons (s : String) (t : Nat) (sid : Option String)
    (rest : List Msg) :
    nonUpdStartIds (⟨.chunkB s, t, sid⟩ :: rest) = nonUpdStartIds rest := by
  simp [nonUpdStartIds]

@[simp] theorem nonUpdStartIds_start_cons (tid n : String) (a : AVal) (ds : Option String)
    (t : Nat) (sid : Option String) (rest : List Msg) :
    nonUpdStartIds (⟨.toolCallStartB tid n a false ds, t, sid⟩ :: rest) =
      tid :: nonUpdStartIds rest := by
  simp [nonUpdStartIds]

@[simp] theorem nonUpdStartIds_upd_cons (tid n : String) (a : AVal) (ds : Option String)
    (t : Nat) (sid : Option String) (rest : List Msg) :
    nonUpdStartIds (⟨.toolCallStartB tid n a true ds, t, sid⟩ :: rest) = nonUpdStartIds rest := by
  simp [nonUpdStartIds]

theorem mem_all_of_mem_nonUpd {tid : String} {l : List Msg} (h : tid ∈ nonUpdStartIds l) :
    tid ∈ allStartIds l := by
  simp only [nonUpdStartIds, List.mem_filterMap] at h
  obtain ⟨m, hm, hf⟩ := h
  simp only [allStartIds, List.mem_filterMap]
  refine ⟨m, hm, ?_⟩
  rcases m with ⟨body, t, sid⟩
  cases body with
  | toolCallStartB tid' n a u ds => cases u <;> simp_all
  | errorB c => simp_all
  | tokenUsageB u => simp_all
  | messageStartB r => simp_all
  | chunkB c => simp_all
  | toolCallResultB a b c => simp_all
  | completeB r s => simp_all

/-- The chunk message the loop may emit before a block. -/
def preChunk (pre : Chars) (tms : Nat) : List Msg :=
  if pre ≠ [] then [⟨.chunkB (String.mk pre), tms, none⟩] else []

/-- The state after a fresh emission for block `(name, post)` with id
`tid`. -/
def freshState (st : PState) (name post : Chars) (tid : String) : PState :=
  { st with
    buffer := post
    sent_tool_ids := insertSent st.sent_tool_ids tid
    tool_id_map := insertOrdered st.tool_id_map (String.mk name) tid }

theorem invokeLoopF_zero (jd : String → Option String) (tms : Nat) (st : PState) :
    invokeLoopF jd tms 0 st = ([], st) := rfl

theorem invokeLoopF_dup {st : PState} {pre name params post : Chars}
    (jd : String → Option String) (tms fuel : Nat)
    (hfi : findInvoke st.buffer = some (pre, name, params, post))
    (hdup : toolIdOf name (parseParams jd params) tms ∈ st.sent_tool_ids) :
    invokeLoopF jd tms (fuel + 1) st =
      (preChunk pre tms ++ (invokeLoopF jd tms fuel { st with buffer := post }).1,
       (invokeLoopF jd tms fuel { st with buffer := post }).2) := by
  simp only [invokeLoopF, hfi, preChunk]
  rw [if_pos hdup]

theorem invokeLoopF_fresh_flush {st : PState} {pre name params post : Chars}
    (jd : String → Option String) (tms fuel : Nat)
    (hfi : findInvoke st.buffer = some (pre, name, params, post))
    (hdup : toolIdOf name (parseParams jd params) tms ∉ st.sent_tool_ids)
    (hflush : subLitWs (lit "</invoke>")
        (orphanLoop jd (parseParams jd params) post).2.1 ≠ [] ∧
      ¬ containsSub (lit "<invoke")
        (subLitWs (lit "</invoke>") (orphanLoop jd (parseParams jd params) post).2.1)) :
    invokeLoopF jd tms (fuel + 1) st =
      (preChunk pre tms ++
        [⟨.toolCallStartB (toolIdOf name (parseParams jd params) tms) (String.mk name)
            (.pairs (parseParams jd params)) false none, tms, none⟩] ++
        (if (orphanLoop jd (parseParams jd params) post).2.2 then
          [⟨.toolCallStartB (toolIdOf name (parseParams jd params) tms) (String.mk name)
              (.pairs (orphanLoop jd (parseParams jd params) post).1) true none, tms, none⟩]
        else []) ++
        [⟨.chunkB (String.mk (subLitWs (lit "</invoke>")
            (orphanLoop jd (parseParams jd params) post).2.1)), tms, none⟩],
       { freshState st name post (toolIdOf name (parseParams jd params) tms) with
          buffer := [] }) := by
  simp only [invokeLoopF, hfi, preChunk, freshState]
  rw [if_neg hdup, if_pos hflush]

theorem invokeLoopF_fresh_continue {st : PState} {pre name params post : Chars}
    (jd : String → Option String) (tms fuel : Nat)
    (hfi : findInvoke st.buffer = some (pre, name, params, post))
    (hdup : toolIdOf name (parseParams jd params) tms ∉ st.sent_tool_ids)
    (hflush : ¬ (subLitWs (lit "</invoke>")
        (orphanLoop jd (parseParams jd params) post).2.1 ≠ [] ∧
      ¬ containsSub (lit "<invoke")
        (subLitWs (lit "</invoke>") (orphanLoop jd (parseParams jd params) post).2.1))) :
    invokeLoopF jd tms (fuel + 1) st =
      (preChunk pre tms ++
        [⟨.toolCallStartB (toolIdOf name (parseParams jd params) tms) (String.mk name)
            (.pairs (parseParams jd params)) false none, tms, none⟩] ++
        (if (orphanLoop jd (parseParams jd params) post).2.2 then
          [⟨.toolCallStartB (toolIdOf name (parseParams jd params) tms) (String.mk name)
              (.pairs (orphanLoop jd (parseParams jd params) post).1) true none, tms, none⟩]
        else []) ++
        (invokeLoopF jd tms fuel
          { freshState st name post (toolIdOf name (parseParams jd params) tms) with
              buffer := subLitWs (lit "</invoke>")
                (orphanLoop jd (parseParams jd params) post).2.1 }).1,
       (invokeLoopF jd tms fuel
          { freshState st name post (toolIdOf name (parseParams jd params) tms) with
              buffer := subLitWs (lit "</invoke>")
                (orphanLoop jd (parseParams jd params) post).2.1 }).2) := by
  simp only [invokeLoopF, hfi, preChunk, freshState]
  rw [if_neg hdup, if_neg hflush]

theorem invokeLoopF_none_retain {st : PState} {preIdx rest : Chars}
    (jd : String → Option String) (tms fuel : Nat)
    (hfi : findInvoke st.buffer = none)
    (hc : containsSub (lit "<invoke") st.buffer = true)
    (hsp : splitFirst (lit "<invoke") st.buffer = some (preIdx, rest)) :
    invokeLoopF jd tms (fuel + 1) st =
      (preChunk preIdx tms,
       if preIdx ≠ [] then { st with buffer := lit "<invoke" ++ rest } else st) := by
  by_cases hpre : preIdx ≠ [] <;>
    simp [invokeLoopF, hfi, hc, hsp, hpre, preChunk]

theorem invokeLoopF_none_flushall {st : PState}
    (jd : String → Option String) (tms fuel : Nat)
    (hfi : findInvoke st.buffer = none)
    (hc : containsSub (lit "<invoke") st.buffer = false) :
    invokeLoopF jd tms (fuel + 1) st =
      (preChunk st.buffer tms, if st.buffer ≠ [] then { st with buffer := [] } else st) := by
  by_cases hb : st.buffer ≠ [] <;>
    simp [invokeLoopF, hfi, hc, hb, preChunk]

theorem invokeLoopF_empty (jd : String → Option String) (tms fuel : Nat) (st : PState)
    (h : st.buffer = []) : invokeLoopF jd tms fuel st = ([], st) := by
  cases fuel with
  | zero => rfl
  | succ n =>
    have hfi : findInvoke st.buffer = none := by rw [h]; rfl
    have hc : containsSub (lit "<invoke") st.buffer = false := by rw [h]; rfl
    rw [invokeLoopF_none_flushall jd tms n hfi hc, h]
    simp [preChunk]

theorem resultScan_id (jd : String → Option String) (tms : Nat)
    (map : List (String × String)) {buf : Chars}
    (h : ¬ containsSub (lit "<result>") buf = true) :
    resultScan jd tms map buf = ([], buf) := by
  simp [resultScan, findResult_none h]

theorem isPrefixOf_take {p s : Chars} {k : Nat} (hp : p.isPrefixOf s = true)
    (hk : p.length ≤ k) : p.isPrefixOf (s.take k) = true := by
  rw [List.isPrefixOf_iff_prefix] at hp ⊢
  obtain ⟨t, rfl⟩ := hp
  rw [List.take_append_eq_append_take, List.take_of_length_le hk]
  exact ⟨_, rfl⟩

/-- The text of one complete invoke block: opening marker carrying the tool
name, parameter region, closing tag. -/
def invokeBlock (name params : Chars) : Chars :=
  lit "<invoke name=\"" ++ name ++ lit "\">" ++ params ++ lit "</invoke>"

theorem convert_textFrame (jd : String → Option String) (tms : Nat) (s : String)
    (st : PState) : convert jd tms (textFrame s) st = textStep jd tms s st := by
  simp [convert, textFrame, eventStep, cbDeltaStep, andThen, andState]

theorem textStep_empty (jd : String → Option String) (tms : Nat) (st : PState)
    (t : String) (ht : t.data = []) (hbuf : st.buffer = []) :
    textStep jd tms t st = ([], st) := by
  obtain ⟨b, sid, map, sent, pend⟩ := st
  simp only at hbuf
  subst hbuf
  simp only [textStep, ht]
  rfl

theorem textStep_retained (jd : String → Option String) (tms : Nat) (st : PState)
    (A : Chars) (hbuf : st.buffer = [])
    (hfc1 : ¬ containsSub (lit "<function_calls>") A = true)
    (hfc2 : ¬ containsSub (lit "</function_calls>") A = true)
    (hres : ¬ containsSub (lit "<result>") A = true)
    (hcl : ¬ containsSub (lit "</invoke>") A = true)
    (hpre : (lit "<invoke").isPrefixOf A = true) :
    textStep jd tms (String.mk A) st = ([], { st with buffer := A }) := by
  obtain ⟨b, sid, map, sent, pend⟩ := st
  simp only at hbuf
  subst hbuf
  have hb2 : subWsLit (lit "</function_calls>")
      (subLitWs (lit "<function_calls>") (([] : Chars) ++ (String.mk A).data)) = A := by
    rw [List.nil_append]
    show subWsLit (lit "</function_calls>") (subLitWs (lit "<function_calls>") A) = A
    rw [subLitWs_id hfc1, subWsLit_id hfc2]
  simp only [textStep, hb2, resultScan_id jd tms map hres]
  rw [invokeLoopF_none_retain jd tms A.length
    (findInvoke_none_of_no_close hcl)
    (containsSub_of_isPrefixOf (by decide) hpre)
    (splitFirst_isPrefixOf (by decide) hpre)]
  simp [preChunk]

theorem textStep_block (jd : String → Option String) (tms : Nat) (st : PState)
    (t : String) (name params : Chars)
    (hsent : st.sent_tool_ids = []) (hmap : st.tool_id_map = [])
    (hT : st.buffer ++ t.data = invokeBlock name params)
    (hfc1 : ¬ containsSub (lit "<function_calls>") (invokeBlock name params) = true)
    (hfc2 : ¬ containsSub (lit "</function_calls>") (invokeBlock name params) = true)
    (hres : ¬ containsSub (lit "<result>") (invokeBlock name params) = true)
    (hfind : findInvoke (invokeBlock name params) = some ([], name, params, [])) :
    textStep jd tms t st =
      ([⟨.toolCallStartB (toolIdOf name (parseParams jd params) tms) (String.mk name)
          (.pairs (parseParams jd params)) false none, tms, none⟩],
       { st with
         buffer := ([] : Chars)
         tool_id_map := [(String.mk name, toolIdOf name (parseParams jd params) tms)]
         sent_tool_ids := [toolIdOf name (parseParams jd params) tms] }) := by
  obtain ⟨b, sid, map, sent, pend⟩ := st
  simp only at hsent hmap hT
  subst hsent hmap
  have hb2 : subWsLit (lit "</function_calls>")
      (subLitWs (lit "<function_calls>") (b ++ t.data)) = invokeBlock name params := by
    rw [hT, subLitWs_id hfc1, subWsLit_id hfc2]
  simp only [textStep, hb2, resultScan_id jd tms [] hres]
  rw [invokeLoopF_fresh_continue jd tms (invokeBlock name params).length hfind
    (by simp)
    (by simp [orphanLoop, orphanLoopF, findParam, splitFirst, subLitWs, subLitWsGo, containsSub])]
  simp only [preChunk]
  rw [invokeLoopF_empty _ _ _ _ rfl]
  simp [orphanLoop, orphanLoopF, findParam, splitFirst, subLitWs, subLitWsGo,
    insertSent, insertOrdered, freshState, lit, List.isPrefixOf]

@[simp] theorem allStartIds_preChunk (pre : Chars) (tms : Nat) :
    allStartIds (preChunk pre tms) = [] := by
  by_cases h : pre ≠ [] <;> simp [preChunk, h]

@[simp] theorem nonUpdStartIds_preChunk (pre : Chars) (tms : Nat) :
    nonUpdStartIds (preChunk pre tms) = [] := by
  by_cases h : pre ≠ [] <;> simp [preChunk, h]

theorem mem_preChunk_isChunk {m : Msg} {pre : Chars} {tms : Nat}
    (h : m ∈ preChunk pre tms) : isChunkOrStart m = true := by
  by_cases hp : pre ≠ [] <;> simp [preChunk, hp] at h
  subst h
  rfl

/-- Combined bookkeeping invariant of the invoke-block loop (parser lines
337-524): the emitted-id set only grows; every emitted tool-call-start —
corrective updates included — carries an id absent from the entry set and
present in the exit set; the non-update start ids are pairwise distinct;
the loop emits only chunk and tool-call-start messages; and every
tool-name-map value at exit was already a value at entry or is one of the
emitted start ids. -/
theorem invokeLoopF_invariant (jd : String → Option String) (tms : Nat) :
    ∀ (fuel : Nat) (st : PState),
      (∀ x ∈ st.sent_tool_ids, x ∈ (invokeLoopF jd tms fuel st).2.sent_tool_ids) ∧
      (∀ tid ∈ allStartIds (invokeLoopF jd tms fuel st).1,
          tid ∉ st.sent_tool_ids ∧ tid ∈ (invokeLoopF jd tms fuel st).2.sent_tool_ids) ∧
      (nonUpdStartIds (invokeLoopF jd tms fuel st).1).Nodup ∧
      (∀ m ∈ (invokeLoopF jd tms fuel st).1, isChunkOrStart m = true) ∧
      (∀ v ∈ (invokeLoopF jd tms fuel st).2.tool_id_map.map Prod.snd,
          v ∈ st.tool_id_map.map Prod.snd ∨ v ∈ allStartIds (invokeLoopF jd tms fuel st).1) := by
  intro fuel
  induction fuel with
  | zero =>
    intro st
    simp [invokeLoopF_zero]
  | succ fuel ih =>
    intro st
    cases hfi : findInvoke st.buffer with
    | none =>
      by_cases hc : containsSub (lit "<invoke") st.buffer
      · cases hsp : splitFirst (lit "<invoke") st.buffer with
        | none => simp [containsSub, hsp] at hc
        | some q =>
          rw [invokeLoopF_none_retain jd tms fuel hfi hc hsp]
          by_cases hpre : q.1 ≠ [] <;>
            refine ⟨?_, ?_, ?_, ?_, ?_⟩ <;>
            simp [hpre] <;>
            intro m hm <;>
            exact mem_preChunk_isChunk hm
      · rw [invokeLoopF_none_flushall jd tms fuel hfi (by simpa using hc)]
        by_cases hb : st.buffer ≠ [] <;>
          refine ⟨?_, ?_, ?_, ?_, ?_⟩ <;>
          simp [hb] <;>
          intro m hm <;>
          exact mem_preChunk_isChunk hm
    | some q =>
      obtain ⟨pre, name, params, post⟩ := q
      by_cases hdup : toolIdOf name (parseParams jd params) tms ∈ st.sent_tool_ids
      · rw [invokeLoopF_dup jd tms fuel hfi hdup]
        obtain ⟨iA, iB, iC, iD, iE⟩ := ih { st with buffer := post }
        refine ⟨?_, ?_, ?_, ?_, ?_⟩
        · intro x hx
          exact iA x hx
        · intro tid htid
          rw [allStartIds_append, allStartIds_preChunk, List.nil_append] at htid
          exact iB tid htid
        · rw [nonUpdStartIds_append, nonUpdStartIds_preChunk, List.nil_append]
          exact iC
        · intro m hm
          rcases List.mem_append.mp hm with hm | hm
          · exact mem_preChunk_isChunk hm
          · exact iD m hm
        · intro v hv
          rw [allStartIds_append, allStartIds_preChunk, List.nil_append]
          exact iE v hv
      · set tid := toolIdOf name (parseParams jd params) tms with htid
        by_cases hflush : subLitWs (lit "</invoke>")
            (orphanLoop jd (parseParams jd params) post).2.1 ≠ [] ∧
          ¬ containsSub (lit "<invoke")
            (subLitWs (lit "</invoke>") (orphanLoop jd (parseParams jd params) post).2.1)
        · rw [invokeLoopF_fresh_flush jd tms fuel hfi hdup hflush]
          refine ⟨?_, ?_, ?_, ?_, ?_⟩
          · intro x hx
            exact mem_insertSent.mpr (Or.inr hx)
          · intro t ht
            have hteq : t = tid := by
              by_cases hupd : (orphanLoop jd (parseParams jd params) post).2.2 <;>
                simp [hupd] at ht <;> tauto
            subst hteq
            exact ⟨hdup, mem_insertSent.mpr (Or.inl rfl)⟩
          · by_cases hupd : (orphanLoop jd (parseParams jd params) post).2.2 <;>
              simp [hupd]
          · intro m hm
            by_cases hupd : (orphanLoop jd (parseParams jd params) post).2.2 <;>
              simp [hupd, preChunk] at hm <;>
              by_cases hpre : pre ≠ [] <;>
              simp [hpre] at hm <;>
              rcases hm with rfl | rfl | rfl | rfl <;> rfl
          · intro v hv
            have hv' : v ∈ (insertOrdered st.tool_id_map (String.mk name) tid).map Prod.snd := hv
            rcases mapVals_insertOrdered hv' with h | h
            · right
              by_cases hupd : (orphanLoop jd (parseParams jd params) post).2.2 <;>
                simp [hupd, h]
            · exact Or.inl h
        · rw [invokeLoopF_fresh_continue jd tms fuel hfi hdup hflush]
          set st2 : PState :=
            { freshState st name post tid with
              buffer := subLitWs (lit "</invoke>")
                (orphanLoop jd (parseParams jd params) post).2.1 } with hst2
          obtain ⟨iA, iB, iC, iD, iE⟩ := ih st2
          have hsent2 : st2.sent_tool_ids = insertSent st.sent_tool_ids tid := rfl
          have hmap2 : st2.tool_id_map = insertOrdered st.tool_id_map (String.mk name) tid := rfl
          have htid_in2 : tid ∈ st2.sent_tool_ids := by
            rw [hsent2]
            exact mem_insertSent.mpr (Or.inl rfl)
          refine ⟨?_, ?_, ?_, ?_, ?_⟩
          · intro x hx
            exact iA x (by rw [hsent2]; exact mem_insertSent.mpr (Or.inr hx))
          · intro t ht
            have ht' : t = tid ∨ t ∈ allStartIds (invokeLoopF jd tms fuel st2).1 := by
              by_cases hupd : (orphanLoop jd (parseParams jd params) post).2.2 <;>
                simp [hupd] at ht <;> tauto
            rcases ht' with heq | ht'
            · subst heq
              exact ⟨hdup, iA tid htid_in2⟩
            · refine ⟨?_, (iB t ht').2⟩
              intro hmem
              exact (iB t ht').1 (by rw [hsent2]; exact mem_insertSent.mpr (Or.inr hmem))
          · have hnotin : tid ∉ nonUpdStartIds (invokeLoopF jd tms fuel st2).1 := by
              intro hmem
              exact (iB tid (mem_all_of_mem_nonUpd hmem)).1 htid_in2
            by_cases hupd : (orphanLoop jd (parseParams jd params) post).2.2 <;>
              simp [hupd, List.nodup_cons, hnotin, iC]
          · intro m hm
            have hm' : m ∈ preChunk pre tms ∨ m ∈ (invokeLoopF jd tms fuel st2).1 ∨
                isChunkOrStart m = true := by
              by_cases hupd : (orphanLoop jd (parseParams jd params) post).2.2 <;>
                simp [hupd] at hm <;>
                rcases hm with hm | hm <;>
                first
                  | exact Or.inl hm
                  | (rcases hm with hm | hm
                     · exact Or.inr (Or.inr (by subst hm; rfl))
                     · first
                        | exact Or.inr (Or.inl hm)
                        | (rcases hm with hm | hm
                           · exact Or.inr (Or.inr (by subst hm; rfl))
                           · exact Or.inr (Or.inl hm)))
            rcases hm' with hm' | hm' | hm'
            · exact mem_preChunk_isChunk hm'
            · exact iD m hm'
            · exact hm'
          · intro v hv
            rcases iE v hv with h | h
            · rw [hmap2] at h
              rcases mapVals_insertOrdered h with h' | h'
              · right
                by_cases hupd : (orphanLoop jd (parseParams jd params) post).2.2 <;>
                  simp [hupd, h']
              · exact Or.inl h'
            · right
              by_cases hupd : (orphanLoop jd (parseParams jd params) post).2.2 <;>
                simp [hupd, h]

@[simp] theorem allStartIds_result_cons (tid : String) (r : RVal) (s : String) (t : Nat)
    (sid : Option String) (rest : List Msg) :
    allStartIds (⟨.toolCallResultB tid r s, t, sid⟩ :: rest) = allStartIds rest := by
  simp [allStartIds]

@[simp] theorem nonUpdStartIds_result_cons (tid : String) (r : RVal) (s : String) (t : Nat)
    (sid : Option String) (rest : List Msg) :
    nonUpdStartIds (⟨.toolCallResultB tid r s, t, sid⟩ :: rest) = nonUpdStartIds rest := by
  simp [nonUpdStartIds]

/-- The emitted-id bookkeeping relation of one parser step: the emitted-id
set grows, every emitted tool-call-start carries an id absent at entry and
present at exit, the non-update start ids are pairwise distinct, and every
map value at exit was a map value at entry or an emitted start id. -/
def SentInv (st : PState) (out : List Msg) (st' : PState) : Prop :=
  (∀ x ∈ st.sent_tool_ids, x ∈ st'.sent_tool_ids) ∧
  (∀ tid ∈ allStartIds out, tid ∉ st.sent_tool_ids ∧ tid ∈ st'.sent_tool_ids) ∧
  (nonUpdStartIds out).Nodup ∧
  (∀ v ∈ st'.tool_id_map.map Prod.snd, v ∈ st.tool_id_map.map Prod.snd ∨ v ∈ allStartIds out)

theorem SentInv.id_step (st : PState) : SentInv st [] st := by
  refine ⟨fun x hx => hx, ?_, ?_, fun v hv => Or.inl hv⟩ <;> simp

/-- Steps that emit no tool-call-start and preserve the emitted-id set. -/
theorem SentInv.skip {st st' : PState} {out : List Msg}
    (hout : allStartIds out = [])
    (hsent : st'.sent_tool_ids = st.sent_tool_ids)
    (hmap : ∀ v ∈ st'.tool_id_map.map Prod.snd, v ∈ st.tool_id_map.map Prod.snd) :
    SentInv st out st' := by
  have hnu : nonUpdStartIds out = [] := by
    rw [List.eq_nil_iff_forall_not_mem]
    intro t ht
    have := mem_all_of_mem_nonUpd ht
    simp [hout] at this
  refine ⟨fun x hx => hsent ▸ hx, ?_, by simp [hnu], fun v hv => Or.inl (hmap v hv)⟩
  intro tid htid
  simp [hout] at htid

theorem SentInv.comp {st st1 st2 : PState} {ms1 ms2 : List Msg}
    (h1 : SentInv st ms1 st1) (h2 : SentInv st1 ms2 st2) :
    SentInv st (ms1 ++ ms2) st2 := by
  obtain ⟨a1, b1, c1, e1⟩ := h1
  obtain ⟨a2, b2, c2, e2⟩ := h2
  refine ⟨fun x hx => a2 x (a1 x hx), ?_, ?_, ?_⟩
  · intro tid htid
    rw [allStartIds_append, List.mem_append] at htid
    rcases htid with h | h
    · exact ⟨(b1 tid h).1, a2 tid (b1 tid h).2⟩
    · exact ⟨fun hmem => (b2 tid h).1 (a1 tid hmem), (b2 tid h).2⟩
  · rw [nonUpdStartIds_append, List.nodup_append]
    refine ⟨c1, c2, ?_⟩
    intro t ht1 ht2
    exact (b2 t (mem_all_of_mem_nonUpd ht2)).1 (b1 t (mem_all_of_mem_nonUpd ht1)).2
  · intro v hv
    rw [allStartIds_append, List.mem_append]
    rcases e2 v hv with h | h
    · rcases e1 v h with h' | h'
      · exact Or.inl h'
      · exact Or.inr (Or.inl h')
    · exact Or.inr (Or.inr h)

theorem invokeLoopF_sentInv (jd : String → Option String) (tms fuel : Nat) (st : PState) :
    SentInv st (invokeLoopF jd tms fuel st).1 (invokeLoopF jd tms fuel st).2 := by
  obtain ⟨a, b, c, _, e⟩ := invokeLoopF_invariant jd tms fuel st
  exact ⟨a, b, c, e⟩

theorem getLast?_mem_mapVals {map : List (String × String)} {kv : String × String}
    (h : map.getLast? = some kv) : kv.2 ∈ map.map Prod.snd :=
  List.mem_map_of_mem Prod.snd (List.mem_of_mem_getLast? (by simp [h]))

/-- The `<result>` scan emits no start and, if it emits a result, the
result's id is one of the map's values. -/
theorem resultScan_shape (jd : String → Option String) (tms : Nat)
    (map : List (String × String)) (buf : Chars) :
    (resultScan jd tms map buf).1 = [] ∨
      ∃ tid ser,
        (resultScan jd tms map buf).1 =
          [⟨.toolCallResultB tid (.json ser) "success", tms, none⟩] ∧
        tid ∈ map.map Prod.snd := by
  rcases hfr : findResult buf with _ | ⟨a, inner, c⟩
  · exact Or.inl (by simp [resultScan, hfr])
  · rcases hjd : jd (String.mk (pyStrip inner)) with _ | ser
    · exact Or.inl (by simp [resultScan, hfr, hjd])
    · rcases hl : map.getLast? with _ | kv
      · exact Or.inl (by simp [resultScan, hfr, hjd, hl])
      · by_cases hne : kv.2 ≠ ""
        · exact Or.inr ⟨kv.2, ser, by simp [resultScan, hfr, hjd, hl, hne],
            getLast?_mem_mapVals hl⟩
        · exact Or.inl (by simp [resultScan, hfr, hjd, hl, hne])

theorem allStartIds_resultScan (jd : String → Option String) (tms : Nat)
    (map : List (String × String)) (buf : Chars) :
    allStartIds (resultScan jd tms map buf).1 = [] := by
  rcases resultScan_shape jd tms map buf with h | ⟨tid, ser, h, _⟩ <;> simp [h]

theorem textStep_sentInv (jd : String → Option String) (tms : Nat) (text : String)
    (st : PState) :
    SentInv st (textStep jd tms text st).1 (textStep jd tms text st).2 := by
  unfold textStep
  have h1 : SentInv st (resultScan jd tms st.tool_id_map
      (subWsLit (lit "</function_calls>")
        (subLitWs (lit "<function_calls>") (st.buffer ++ text.data)))).1
      { st with buffer := (resultScan jd tms st.tool_id_map
          (subWsLit (lit "</function_calls>")
            (subLitWs (lit "<function_calls>") (st.buffer ++ text.data)))).2 } :=
    SentInv.skip (allStartIds_resultScan _ _ _ _) rfl (fun v hv => hv)
  exact SentInv.comp h1 (invokeLoopF_sentInv jd tms _ _)

/-- The bookkeeping relation only inspects the emitted-id set and the tool
map, so steps from a state differing only in other fields transfer. -/
theorem SentInv_of_same_books {st st1 st' : PState} {out : List Msg}
    (hs : st1.sent_tool_ids = st.sent_tool_ids)
    (hm : st1.tool_id_map = st.tool_id_map)
    (h : SentInv st1 out st') : SentInv st out st' := by
  obtain ⟨a, b, c, e⟩ := h
  refine ⟨fun x hx => a x (hs ▸ hx), ?_, c, ?_⟩
  · intro t ht
    exact ⟨fun hmem => (b t ht).1 (hs ▸ hmem), (b t ht).2⟩
  · intro v hv
    rcases e v hv with h' | h'
    · exact Or.inl (by rw [← hm]; exact h')
    · exact Or.inr h'

theorem cbDeltaStep_sentInv (jd : String → Option String) (tms : Nat) (d : CBDelta)
    (st : PState) :
    SentInv st (cbDeltaStep jd tms d st).1 (cbDeltaStep jd tms d st).2 := by
  unfold cbDeltaStep
  rcases d.toolUse with _ | inp
  · rcases d.text with _ | t
    · exact SentInv.id_step st
    · exact textStep_sentInv jd tms t st
  · rcases hfp : findPendingByIdx st.pending_tool_calls d.contentBlockIndex with _ | kv
    · rcases d.text with _ | t
      · exact SentInv.id_step st
      · exact textStep_sentInv jd tms t st
    · rcases d.text with _ | t
      · exact SentInv.skip (by simp) rfl (fun v hv => hv)
      · exact SentInv_of_same_books rfl rfl
          (textStep_sentInv jd tms t
            { st with pending_tool_calls := appendArgsBuffer st.pending_tool_calls kv.1 inp })

theorem cbStopStep_sentInv (jd : String → Option String) (tms : Nat) (c : CBStop)
    (st : PState) :
    SentInv st (cbStopStep jd tms c st).1 (cbStopStep jd tms c st).2 := by
  unfold cbStopStep
  cases findPendingByIdx st.pending_tool_calls c.contentBlockIndex with
  | none => exact SentInv.id_step st
  | some kv =>
    by_cases hmem : kv.1 ∈ st.sent_tool_ids
    · simp only [if_pos hmem]
      exact SentInv.skip (by simp) rfl (fun v hv => hv)
    · simp only [if_neg hmem]
      refine ⟨fun x hx => mem_insertSent.mpr (Or.inr hx), ?_, by simp, fun v hv => Or.inl hv⟩
      intro tid htid
      simp at htid
      subst htid
      exact ⟨hmem, mem_insertSent.mpr (Or.inl rfl)⟩

theorem mapVals_removeFirstByVal {map : List (String × String)} {tid v : String}
    (h : v ∈ (removeFirstByVal map tid).map Prod.snd) : v ∈ map.map Prod.snd := by
  induction map with
  | nil => simp [removeFirstByVal] at h
  | cons kv rest ih =>
    obtain ⟨k, w⟩ := kv
    by_cases hw : w = tid
    · simp only [removeFirstByVal, if_pos hw] at h
      rw [List.map_cons]
      exact List.mem_cons_of_mem _ h
    · simp only [removeFirstByVal, if_neg hw, List.map_cons] at h
      rw [List.map_cons]
      rcases List.mem_cons.mp h with h | h
      · exact List.mem_cons.mpr (Or.inl h)
      · exact List.mem_cons.mpr (Or.inr (ih h))

theorem messageFold_sentInv (jd : String → Option String) (tms : Nat) :
    ∀ (content : List MContent) (acc : List Msg × PState),
      (messageFold jd tms content acc).2.sent_tool_ids = acc.2.sent_tool_ids ∧
      allStartIds (messageFold jd tms content acc).1 = allStartIds acc.1 ∧
      nonUpdStartIds (messageFold jd tms content acc).1 = nonUpdStartIds acc.1 ∧
      (∀ v ∈ (messageFold jd tms content acc).2.tool_id_map.map Prod.snd,
        v ∈ acc.2.tool_id_map.map Prod.snd) := by
  intro content
  induction content with
  | nil => intro acc; exact ⟨rfl, rfl, rfl, fun v hv => hv⟩
  | cons c rest ih =>
    intro acc
    cases c with
    | otherContent => exact ih acc
    | toolResult tr =>
      obtain ⟨hA, hB, hC, hE⟩ :=
        ih (acc.1 ++ (toolResultStep jd tms tr acc.2).1, (toolResultStep jd tms tr acc.2).2)
      refine ⟨hA, ?_, ?_, ?_⟩
      · rw [show messageFold jd tms (MContent.toolResult tr :: rest) acc =
          messageFold jd tms rest
            (acc.1 ++ (toolResultStep jd tms tr acc.2).1, (toolResultStep jd tms tr acc.2).2)
          from rfl, hB]
        simp [toolResultStep]
      · rw [show messageFold jd tms (MContent.toolResult tr :: rest) acc =
          messageFold jd tms rest
            (acc.1 ++ (toolResultStep jd tms tr acc.2).1, (toolResultStep jd tms tr acc.2).2)
          from rfl, hC]
        simp [toolResultStep]
      · intro v hv
        have := hE v hv
        simp only [toolResultStep] at this
        exact mapVals_removeFirstByVal this

theorem messageStep_sentInv (jd : String → Option String) (tms : Nat) (m : MessageData)
    (st : PState) :
    SentInv st (messageStep jd tms m st).1 (messageStep jd tms m st).2 := by
  unfold messageStep
  by_cases hrole : m.role = some "assistant" ∨ m.role = some "user"
  · simp only [if_pos hrole]
    obtain ⟨hA, hB, hC, hE⟩ := messageFold_sentInv jd tms m.content ([], st)
    refine SentInv.skip ?_ hA ?_
    · rw [hB]; rfl
    · intro v hv
      exact hE v hv
  · simp only [if_neg hrole]
    exact SentInv.id_step st

theorem SentInv.andThenStep {st : PState} {r : List Msg × PState}
    {f : PState → List Msg × PState}
    (h1 : SentInv st r.1 r.2) (h2 : ∀ s, SentInv s (f s).1 (f s).2) :
    SentInv st (andThen r f).1 (andThen r f).2 :=
  SentInv.comp h1 (h2 r.2)

theorem SentInv.extend {st st1 st2 : PState} {out : List Msg}
    (h1 : SentInv st out st1) (h2 : SentInv st1 [] st2) : SentInv st out st2 := by
  have := h1.comp h2
  simpa using this

@[simp] theorem allStartIds_error_cons (c : String) (t : Nat) (sid : Option String)
    (rest : List Msg) :
    allStartIds (⟨.errorB c, t, sid⟩ :: rest) = allStartIds rest := by
  simp [allStartIds]

@[simp] theorem allStartIds_token_cons (u : Usage) (t : Nat) (sid : Option String)
    (rest : List Msg) :
    allStartIds (⟨.tokenUsageB u, t, sid⟩ :: rest) = allStartIds rest := by
  simp [allStartIds]

@[simp] theorem allStartIds_msgstart_cons (role : String) (t : Nat) (sid : Option String)
    (rest : List Msg) :
    allStartIds (⟨.messageStartB role, t, sid⟩ :: rest) = allStartIds rest := by
  simp [allStartIds]

@[simp] theorem allStartIds_complete_cons (r : Option String) (su : Bool) (t : Nat)
    (sid : Option String) (rest : List Msg) :
    allStartIds (⟨.completeB r su, t, sid⟩ :: rest) = allStartIds rest := by
  simp [allStartIds]

@[simp] theorem nonUpdStartIds_error_cons (c : String) (t : Nat) (sid : Option String)
    (rest : List Msg) :
    nonUpdStartIds (⟨.errorB c, t, sid⟩ :: rest) = nonUpdStartIds rest := by
  simp [nonUpdStartIds]

@[simp] theorem nonUpdStartIds_token_cons (u : Usage) (t : Nat) (sid : Option String)
    (rest : List Msg) :
    nonUpdStartIds (⟨.tokenUsageB u, t, sid⟩ :: rest) = nonUpdStartIds rest := by
  simp [nonUpdStartIds]

@[simp] theorem nonUpdStartIds_msgstart_cons (role : String) (t : Nat) (sid : Option String)
    (rest : List Msg) :
    nonUpdStartIds (⟨.messageStartB role, t, sid⟩ :: rest) = nonUpdStartIds rest := by
  simp [nonUpdStartIds]

@[simp] theorem nonUpdStartIds_complete_cons (r : Option String) (su : Bool) (t : Nat)
    (sid : Option String) (rest : List Msg) :
    nonUpdStartIds (⟨.completeB r su, t, sid⟩ :: rest) = nonUpdStartIds rest := by
  simp [nonUpdStartIds]

theorem SentInv.andStateStep {st : PState} {r : List Msg × PState} {g : PState → PState}
    (h1 : SentInv st r.1 r.2)
    (hg : ∀ s, (g s).sent_tool_ids = s.sent_tool_ids ∧
      (g s).tool_id_map = s.tool_id_map) :
    SentInv st (andState r g).1 (andState r g).2 :=
  SentInv.extend h1 (SentInv.skip rfl (hg r.2).1 (fun v hv => by
    have hv2 : v ∈ List.map Prod.snd (g r.2).tool_id_map := hv
    rw [(hg r.2).2] at hv2
    exact hv2))

theorem cbStartStep_books (c : CBStart) (s : PState) :
    (cbStartStep c s).sent_tool_ids = s.sent_tool_ids ∧
    (cbStartStep c s).tool_id_map = s.tool_id_map := by
  rcases hc : c.toolUse with _ | p <;> simp [cbStartStep, hc]

theorem msgStopStep_sentInv (tms : Nat) (r : Option String) (st : PState) :
    SentInv st (msgStopStep tms r st).1 (msgStopStep tms r st).2 := by
  have hout : allStartIds (msgStopStep tms r st).1 = [] := by
    unfold msgStopStep
    by_cases hb : st.buffer ≠ [] <;>
      by_cases hr : r = some "end_turn" ∨ r = some "max_tokens" ∨ r = some "stop_sequence" <;>
      simp [hb, hr]
  have hst : (msgStopStep tms r st).2 = { st with buffer := [] } := by
    unfold msgStopStep
    by_cases hr : r = some "end_turn" ∨ r = some "max_tokens" ∨ r = some "stop_sequence" <;>
      simp [hr]
  refine SentInv.skip hout (by rw [hst]) (fun v hv => by rw [hst] at hv; exact hv)

theorem eventStep_sentInv (jd : String → Option String) (tms : Nat) (ev : EventData)
    (st : PState) :
    SentInv st (eventStep jd tms ev st).1 (eventStep jd tms ev st).2 := by
  unfold eventStep
  refine SentInv.andThenStep (SentInv.andThenStep (SentInv.andStateStep
    (SentInv.andThenStep ?_ ?_) ?_) ?_) ?_
  · refine SentInv.skip ?_ rfl (fun v hv => hv)
    rcases ev.messageStart with _ | role <;> simp [allStartIds]
  · intro s
    rcases ev.contentBlockDelta with _ | cbd
    · exact SentInv.id_step s
    · exact cbDeltaStep_sentInv jd tms cbd s
  · intro s
    rcases ev.contentBlockStart with _ | cbs
    · exact ⟨rfl, rfl⟩
    · exact cbStartStep_books cbs s
  · intro s
    rcases ev.contentBlockStop with _ | cbp
    · exact SentInv.id_step s
    · exact cbStopStep_sentInv jd tms cbp s
  · intro s
    rcases ev.messageStop with _ | r
    · exact SentInv.id_step s
    · exact msgStopStep_sentInv tms r s

/-- The whole-frame conversion respects the emitted-id bookkeeping. -/
theorem convert_sentInv (jd : String → Option String) (tms : Nat) (d : DataFrame)
    (st : PState) :
    SentInv st (convert jd tms d st).1 (convert jd tms d st).2 := by
  unfold convert
  rcases hd : d.error with _ | e
  · by_cases hft : d.ftype = some "token_usage"
    · simp only [if_pos hft]
      exact SentInv.skip (by simp [allStartIds]) rfl (fun v hv => hv)
    · simp only [if_neg hft]
      refine SentInv.andThenStep ?_ ?_
      · rcases d.event with _ | ev
        · exact SentInv.id_step st
        · exact eventStep_sentInv jd tms ev st
      · intro s
        rcases d.message with _ | m
        · exact SentInv.id_step s
        · exact messageStep_sentInv jd tms m s
  · exact SentInv.skip (by simp [allStartIds]) rfl (fun v hv => hv)

/-- Running a whole frame sequence respects the bookkeeping. -/
theorem runConvert_sentInv (jd : String → Option String) :
    ∀ (l : List (Nat × DataFrame)) (st : PState),
      SentInv st (runConvert jd l st).1 (runConvert jd l st).2 := by
  intro l
  induction l with
  | nil => intro st; exact SentInv.id_step st
  | cons p rest ih =>
    intro st
    obtain ⟨tms, d⟩ := p
    exact SentInv.comp (convert_sentInv jd tms d st) (ih (convert jd tms d st).2)

/-- C3, amended.  The claim fails as stated because the corrective update
re-emission deliberately reuses the id it corrects (see the
counterexample); what holds is: over any sequence of frames fed to one
Normalizer instance, the ids of the non-update `tool_call_start` events are
pairwise distinct — an invoke block whose derived id is already in the
emitted-id set is suppressed and produces no second non-update
`tool_call_start` with that id; only the corrective `update` re-emission
(flagged `update: true`) repeats an id. -/
theorem c3_nonupdate_start_ids_unique (jd : String → Option String)
    (l : List (Nat × DataFrame)) (st : PState) :
    (nonUpdStartIds (runConvert jd l st).1).Nodup :=
  (runConvert_sentInv jd l st).2.2.1

/-- C7, amended.  Feeding the same complete frame twice to one Normalizer
instance adds, in the second parse, no `tool_call_start` — update or not —
whose id the first parse emitted; and across both parses the non-update
`tool_call_start` events carry at most one occurrence per unique id.  (The
claim's blanket "at most one tool_call_start per unique id" fails only for
the corrective update re-emission, which repeats the id it corrects; see
the counterexample.) -/
theorem c7_second_parse_adds_no_emitted_id (jd : String → Option String) (d : DataFrame)
    (st : PState) (ts1 ts2 : Nat) :
    (∀ tid ∈ allStartIds (convert jd ts2 d (convert jd ts1 d st).2).1,
        tid ∉ allStartIds (convert jd ts1 d st).1) ∧
    (nonUpdStartIds
      ((convert jd ts1 d st).1 ++ (convert jd ts2 d (convert jd ts1 d st).2).1)).Nodup := by
  have h1 := convert_sentInv jd ts1 d st
  have h2 := convert_sentInv jd ts2 d (convert jd ts1 d st).2
  refine ⟨?_, (h1.comp h2).2.2.1⟩
  intro tid htid hmem
  exact (h2.2.1 tid htid).1 ((h1.2.1 tid hmem).2)

/-- C7, witness: the identical complete-invoke-block frame parsed twice at
distinct capture times; the second parse emits a start with a fresh id,
which `c7_second_parse_adds_no_emitted_id` shows cannot be an id the first
parse emitted. -/
theorem c7_second_parse_adds_no_emitted_id_witness :
    "tool_t__2000" ∈ allStartIds
      (convert jdNone 2 (textFrame "<invoke name=\"t\"></invoke>")
        (convert jdNone 1 (textFrame "<invoke name=\"t\"></invoke>") (PState.init none)).2).1 ∧
    "tool_t__2000" ∉ allStartIds
      (convert jdNone 1 (textFrame "<invoke name=\"t\"></invoke>") (PState.init none)).1 :=
  ⟨by decide,
   (c7_second_parse_adds_no_emitted_id jdNone (textFrame "<invoke name=\"t\"></invoke>")
      (PState.init none) 1 2).1 "tool_t__2000" (by decide)⟩

/-! ## The result-matching invariant (claim C4) -/

def isResultMsg (m : Msg) : Bool :=
  match m.body with
  | .toolCallResultB _ _ _ => true
  | _ => false

/-- The start-id accumulation `resultsMatchedFrom` performs while scanning. -/
def seenAfter (S : List String) (ms : List Msg) : List String :=
  ms.foldl
    (fun s m =>
      match m.body with
      | .toolCallStartB tid _ _ _ _ => tid :: s
      | _ => s)
    S

theorem seenAfter_append (S : List String) (a b : List Msg) :
    seenAfter S (a ++ b) = seenAfter (seenAfter S a) b := by
  simp [seenAfter, List.foldl_append]

theorem mem_seenAfter_of_mem {x : String} {ms : List Msg} :
    ∀ {S : List String}, x ∈ S → x ∈ seenAfter S ms := by
  induction ms with
  | nil => intro S h; exact h
  | cons m rest ih =>
    intro S h
    rcases m with ⟨body, t, sid⟩
    cases body <;> exact ih (by first | exact h | exact List.mem_cons_of_mem _ h)

theorem mem_seenAfter_of_start {x : String} {ms : List Msg} :
    ∀ {S : List String}, x ∈ allStartIds ms → x ∈ seenAfter S ms := by
  induction ms with
  | nil => intro S h; simp at h
  | cons m rest ih =>
    intro S h
    rcases m with ⟨body, t, sid⟩
    cases body with
    | toolCallStartB tid n a u ds =>
      simp at h
      rcases h with h | h
      · have hmem : tid ∈ seenAfter (tid :: S) rest :=
          mem_seenAfter_of_mem (List.mem_cons_self _ _)
        rw [h]
        exact hmem
      · exact ih h
    | errorB c => exact ih (by simpa using h)
    | tokenUsageB u => exact ih (by simpa using h)
    | messageStartB r => exact ih (by simpa using h)
    | chunkB c => exact ih (by simpa using h)
    | toolCallResultB a b c => exact ih (by simpa using h)
    | completeB r s => exact ih (by simpa using h)

theorem resultsMatchedFrom_append (a b : List Msg) :
    ∀ S : List String,
      resultsMatchedFrom S (a ++ b) =
        (resultsMatchedFrom S a && resultsMatchedFrom (seenAfter S a) b) := by
  induction a with
  | nil => intro S; simp [resultsMatchedFrom, seenAfter]
  | cons m rest ih =>
    intro S
    rcases m with ⟨body, t, sid⟩
    cases body with
    | toolCallStartB tid n a' u ds => exact ih (tid :: S)
    | toolCallResultB tid r s =>
      show (decide (tid ∈ S) && resultsMatchedFrom S (rest ++ b)) =
        ((decide (tid ∈ S) && resultsMatchedFrom S rest) &&
          resultsMatchedFrom (seenAfter S rest) b)
      rw [ih S, Bool.and_assoc]
    | errorB c => exact ih S
    | tokenUsageB u => exact ih S
    | messageStartB r => exact ih S
    | chunkB c => exact ih S
    | completeB r s => exact ih S

theorem resultsMatchedFrom_of_no_results {ms : List Msg}
    (h : ∀ m ∈ ms, isResultMsg m = false) :
    ∀ S, resultsMatchedFrom S ms = true := by
  induction ms with
  | nil => intro S; rfl
  | cons m rest ih =>
    intro S
    have hrest := ih (fun x hx => h x (List.mem_cons_of_mem _ hx))
    rcases m with ⟨body, t, sid⟩
    cases body with
    | toolCallResultB tid r s =>
      have := h ⟨.toolCallResultB tid r s, t, sid⟩ (List.mem_cons_self _ _)
      simp [isResultMsg] at this
    | toolCallStartB tid n a u ds => simpa [resultsMatchedFrom] using hrest _
    | errorB c => simpa [resultsMatchedFrom] using hrest _
    | tokenUsageB u => simpa [resultsMatchedFrom] using hrest _
    | messageStartB r => simpa [resultsMatchedFrom] using hrest _
    | chunkB c => simpa [resultsMatchedFrom] using hrest _
    | completeB r s => simpa [resultsMatchedFrom] using hrest _

/-- The result-matching relation of one parser step: for every id universe
`S` covering the map values at entry, the output's results all reference
ids in scope, and the map values at exit are in scope afterwards. -/
def ResInv (st : PState) (out : List Msg) (st' : PState) : Prop :=
  ∀ S : List String, (∀ v ∈ st.tool_id_map.map Prod.snd, v ∈ S) →
    resultsMatchedFrom S out = true ∧
    (∀ v ∈ st'.tool_id_map.map Prod.snd, v ∈ seenAfter S out)

theorem ResInv.compR {st st1 st2 : PState} {a b : List Msg}
    (h1 : ResInv st a st1) (h2 : ResInv st1 b st2) : ResInv st (a ++ b) st2 := by
  intro S hS
  obtain ⟨m1, s1⟩ := h1 S hS
  obtain ⟨m2, s2⟩ := h2 (seenAfter S a) s1
  constructor
  · rw [resultsMatchedFrom_append, m1, m2]
    rfl
  · intro v hv
    rw [seenAfter_append]
    exact s2 v hv

/-- Steps that emit no result message and whose exit map values are entry
map values or emitted start ids. -/
theorem ResInv.ofParts {st st' : PState} {out : List Msg}
    (hres : ∀ m ∈ out, isResultMsg m = false)
    (hmap : ∀ v ∈ st'.tool_id_map.map Prod.snd,
      v ∈ st.tool_id_map.map Prod.snd ∨ v ∈ allStartIds out) :
    ResInv st out st' := by
  intro S hS
  refine ⟨resultsMatchedFrom_of_no_results hres S, ?_⟩
  intro v hv
  rcases hmap v hv with h | h
  · exact mem_seenAfter_of_mem (hS v h)
  · exact mem_seenAfter_of_start h

theorem ResInv.idStepR (st : PState) : ResInv st [] st := by
  intro S hS
  exact ⟨rfl, fun v hv => hS v hv⟩

theorem isChunkOrStart_not_result {m : Msg} (h : isChunkOrStart m = true) :
    isResultMsg m = false := by
  rcases m with ⟨body, t, sid⟩
  cases body <;> simp_all [isChunkOrStart, isResultMsg]

theorem invokeLoopF_resInv (jd : String → Option String) (tms fuel : Nat) (st : PState) :
    ResInv st (invokeLoopF jd tms fuel st).1 (invokeLoopF jd tms fuel st).2 := by
  obtain ⟨_, _, _, d, e⟩ := invokeLoopF_invariant jd tms fuel st
  exact ResInv.ofParts (fun m hm => isChunkOrStart_not_result (d m hm)) e

theorem resultScan_resInv (jd : String → Option String) (tms : Nat) (st : PState)
    (buf : Chars) :
    ResInv st (resultScan jd tms st.tool_id_map buf).1
      { st with buffer := (resultScan jd tms st.tool_id_map buf).2 } := by
  intro S hS
  rcases resultScan_shape jd tms st.tool_id_map buf with h | ⟨tid, ser, h, hmem⟩
  · rw [h]
    exact ⟨rfl, fun v hv => hS v hv⟩
  · rw [h]
    constructor
    · simp [resultsMatchedFrom, hS tid hmem]
    · intro v hv
      exact mem_seenAfter_of_mem (hS v hv)

theorem ResInv_of_same_map {st st1 st' : PState} {out : List Msg}
    (hm : st1.tool_id_map = st.tool_id_map)
    (h : ResInv st1 out st') : ResInv st out st' := by
  intro S hS
  exact h S (fun v hv => hS v (by rw [← hm]; exact hv))

theorem textStep_resInv (jd : String → Option String) (tms : Nat) (text : String)
    (st : PState) :
    ResInv st (textStep jd tms text st).1 (textStep jd tms text st).2 := by
  unfold textStep
  exact ResInv.compR (resultScan_resInv jd tms st _) (invokeLoopF_resInv jd tms _ _)

theorem cbDeltaStep_resInv (jd : String → Option String) (tms : Nat) (d : CBDelta)
    (st : PState) :
    ResInv st (cbDeltaStep jd tms d st).1 (cbDeltaStep jd tms d st).2 := by
  unfold cbDeltaStep
  rcases d.toolUse with _ | inp
  · rcases d.text with _ | t
    · exact ResInv.idStepR st
    · exact textStep_resInv jd tms t st
  · rcases hfp : findPendingByIdx st.pending_tool_calls d.contentBlockIndex with _ | kv
    · rcases d.text with _ | t
      · exact ResInv.idStepR st
      · exact textStep_resInv jd tms t st
    · rcases d.text with _ | t
      · exact ResInv.ofParts (by simp) (fun v hv => Or.inl hv)
      · exact ResInv_of_same_map rfl
          (textStep_resInv jd tms t
            { st with pending_tool_calls := appendArgsBuffer st.pending_tool_calls kv.1 inp })

theorem cbStopStep_resInv (jd : String → Option String) (tms : Nat) (c : CBStop)
    (st : PState) :
    ResInv st (cbStopStep jd tms c st).1 (cbStopStep jd tms c st).2 := by
  unfold cbStopStep
  rcases findPendingByIdx st.pending_tool_calls c.contentBlockIndex with _ | kv
  · exact ResInv.idStepR st
  · by_cases hmem : kv.1 ∈ st.sent_tool_ids
    · simp only [if_pos hmem]
      exact ResInv.ofParts (by simp) (fun v hv => Or.inl hv)
    · simp only [if_neg hmem]
      refine ResInv.ofParts ?_ (fun v hv => Or.inl hv)
      intro m hm
      simp at hm
      subst hm
      rfl

theorem msgStopStep_resInv (tms : Nat) (r : Option String) (st : PState) :
    ResInv st (msgStopStep tms r st).1 (msgStopStep tms r st).2 := by
  have hst : (msgStopStep tms r st).2 = { st with buffer := [] } := by
    unfold msgStopStep
    by_cases hr : r = some "end_turn" ∨ r = some "max_tokens" ∨ r = some "stop_sequence" <;>
      simp [hr]
  refine ResInv.ofParts ?_ (fun v hv => Or.inl (by rw [hst] at hv; exact hv))
  intro m hm
  unfold msgStopStep at hm
  by_cases hb : st.buffer ≠ [] <;>
    by_cases hr : r = some "end_turn" ∨ r = some "max_tokens" ∨ r = some "stop_sequence" <;>
    simp [hb, hr] at hm <;>
    (rcases hm with rfl | rfl <;> rfl)

theorem messageFold_no_results (jd : String → Option String) (tms : Nat) :
    ∀ (content : List MContent),
      (∀ c ∈ content, c = MContent.otherContent) →
      ∀ acc, messageFold jd tms content acc = acc := by
  intro content
  induction content with
  | nil => intro _ acc; rfl
  | cons c rest ih =>
    intro h acc
    have hc := h c (List.mem_cons_self _ _)
    subst hc
    exact ih (fun x hx => h x (List.mem_cons_of_mem _ hx)) acc

theorem messageStep_resInv_clean (jd : String → Option String) (tms : Nat)
    (m : MessageData) (st : PState)
    (h : m.content.all (fun c =>
      match c with
      | .toolResult _ => false
      | .otherContent => true) = true) :
    ResInv st (messageStep jd tms m st).1 (messageStep jd tms m st).2 := by
  unfold messageStep
  have hall : ∀ c ∈ m.content, c = MContent.otherContent := by
    intro c hc
    have := List.all_eq_true.mp h c hc
    cases c with
    | toolResult tr => simp at this
    | otherContent => rfl
  by_cases hrole : m.role = some "assistant" ∨ m.role = some "user"
  · simp only [if_pos hrole, messageFold_no_results jd tms m.content hall ([], st)]
    exact ResInv.idStepR st
  · simp only [if_neg hrole]
    exact ResInv.idStepR st

theorem ResInv.andThenStepR {st : PState} {r : List Msg × PState}
    {f : PState → List Msg × PState}
    (h1 : ResInv st r.1 r.2) (h2 : ∀ s, ResInv s (f s).1 (f s).2) :
    ResInv st (andThen r f).1 (andThen r f).2 :=
  ResInv.compR h1 (h2 r.2)

theorem ResInv.extendR {st st1 st2 : PState} {out : List Msg}
    (h1 : ResInv st out st1) (h2 : ResInv st1 [] st2) : ResInv st out st2 := by
  have h := h1.compR h2
  rw [List.append_nil] at h
  exact h

theorem ResInv.andStateStepR {st : PState} {r : List Msg × PState} {g : PState → PState}
    (h1 : ResInv st r.1 r.2)
    (hg : ∀ s, (g s).tool_id_map = s.tool_id_map) :
    ResInv st (andState r g).1 (andState r g).2 := by
  refine ResInv.extendR h1 ?_
  intro S hS
  refine ⟨rfl, ?_⟩
  intro v hv
  have hv2 : v ∈ List.map Prod.snd (g r.2).tool_id_map := hv
  rw [hg r.2] at hv2
  exact hS v hv2

theorem eventStep_resInv (jd : String → Option String) (tms : Nat) (ev : EventData)
    (st : PState) :
    ResInv st (eventStep jd tms ev st).1 (eventStep jd tms ev st).2 := by
  unfold eventStep
  refine ResInv.andThenStepR (ResInv.andThenStepR (ResInv.andStateStepR
    (ResInv.andThenStepR ?_ ?_) ?_) ?_) ?_
  · refine ResInv.ofParts ?_ (fun v hv => Or.inl hv)
    rcases ev.messageStart with _ | role <;> intro m hm <;> simp at hm
    subst hm
    rfl
  · intro s
    rcases ev.contentBlockDelta with _ | cbd
    · exact ResInv.idStepR s
    · exact cbDeltaStep_resInv jd tms cbd s
  · intro s
    rcases ev.contentBlockStart with _ | cbs
    · rfl
    · exact (cbStartStep_books cbs s).2
  · intro s
    rcases ev.contentBlockStop with _ | cbp
    · exact ResInv.idStepR s
    · exact cbStopStep_resInv jd tms cbp s
  · intro s
    rcases ev.messageStop with _ | r
    · exact ResInv.idStepR s
    · exact msgStopStep_resInv tms r s

theorem convert_resInv (jd : String → Option String) (tms : Nat) (d : DataFrame)
    (st : PState) (h : noMsgToolResults d = true) :
    ResInv st (convert jd tms d st).1 (convert jd tms d st).2 := by
  unfold convert
  rcases hd : d.error with _ | e
  · by_cases hft : d.ftype = some "token_usage"
    · simp only [if_pos hft]
      refine ResInv.ofParts ?_ (fun v hv => Or.inl hv)
      intro m hm
      simp at hm
      subst hm
      rfl
    · simp only [if_neg hft]
      refine ResInv.andThenStepR ?_ ?_
      · rcases d.event with _ | ev
        · exact ResInv.idStepR st
        · exact eventStep_resInv jd tms ev st
      · intro s
        rcases hm : d.message with _ | m
        · exact ResInv.idStepR s
        · refine messageStep_resInv_clean jd tms m s ?_
          unfold noMsgToolResults at h
          rw [hm] at h
          exact h
  · refine ResInv.ofParts ?_ (fun v hv => Or.inl hv)
    intro m hm
    simp at hm
    subst hm
    rfl

theorem runConvert_resInv (jd : String → Option String) :
    ∀ (l : List (Nat × DataFrame)) (st : PState),
      (∀ p ∈ l, noMsgToolResults p.2 = true) →
      ResInv st (runConvert jd l st).1 (runConvert jd l st).2 := by
  intro l
  induction l with
  | nil => intro st _; exact ResInv.idStepR st
  | cons p rest ih =>
    intro st h
    obtain ⟨tms, d⟩ := p
    exact ResInv.compR
      (convert_resInv jd tms d st (h (tms, d) (List.mem_cons_self _ _)))
      (ih (convert jd tms d st).2 (fun x hx => h x (List.mem_cons_of_mem _ hx)))

/-- C4, amended.  The claim fails as stated because `message.toolResult`
frames forward the upstream id unchecked (see the counterexample); what
holds is: over any frame sequence containing no `message.toolResult`
entries, every `tool_call_result` the Normalizer emits (these all come from
the embedded `<result>` path, attributed via `tool_id_map`) carries an id
for which a `tool_call_start` was emitted earlier in the same output
sequence. -/
theorem c4_results_reference_earlier_starts (jd : String → Option String)
    (sid : Option String) (l : List (Nat × DataFrame))
    (h : ∀ p ∈ l, noMsgToolResults p.2 = true) :
    resultsMatched (runConvert jd l (PState.init sid)).1 = true := by
  have hinv := runConvert_resInv jd l (PState.init sid) h
  exact (hinv [] (by intro v hv; simp [PState.init] at hv)).1

/-- The name and parameter region of the spec's Scenario B block. -/
def scenarioBName : Chars := lit "get_cost"

def scenarioBParams : Chars := lit "<parameter name=\"account\">acme</parameter>"

theorem c4_results_reference_earlier_starts_witness :
    (∀ p ∈ [((1 : Nat), textFrame "<invoke name=\"t\"></invoke>"),
            (2, textFrame "<result>42</result>")], noMsgToolResults p.2 = true) ∧
    resultsMatched (runConvert jdEcho
      [(1, textFrame "<invoke name=\"t\"></invoke>"),
       (2, textFrame "<result>42</result>")] (PState.init none)).1 = true ∧
    MsgBody.toolCallResultB "tool_t__1000" (RVal.json "42") "success" ∈
      ((runConvert jdEcho
        [(1, textFrame "<invoke name=\"t\"></invoke>"),
         (2, textFrame "<result>42</result>")] (PState.init none)).1.map Msg.body) :=
  ⟨by decide,
   c4_results_reference_earlier_starts jdEcho none
     [(1, textFrame "<invoke name=\"t\"></invoke>"),
      (2, textFrame "<result>42</result>")] (by decide),
   by decide⟩

/-- C6, amended.  Chunk-boundary invariance fails as claimed when the
boundary falls strictly inside the literal `<invoke` (see the
counterexample: the partial marker is flushed as plain text and the call is
lost); at every other boundary it holds: splitting a complete invoke block
into two frames either at the very start or at or beyond the end of the
marker literal yields exactly the same messages and the same final parser
state as one-frame delivery — one `tool_call_start` carrying the fully
parsed arguments. -/
theorem c6_split_invariance (jd : String → Option String) (tms : Nat)
    (name params : Chars) (k : Nat)
    (hfind : findInvoke (invokeBlock name params) = some ([], name, params, []))
    (hcl : ¬ containsSub (lit "</invoke>") (invokeBlock name params).dropLast = true)
    (hfc1 : ¬ containsSub (lit "<function_calls>") (invokeBlock name params) = true)
    (hfc2 : ¬ containsSub (lit "</function_calls>") (invokeBlock name params) = true)
    (hres : ¬ containsSub (lit "<result>") (invokeBlock name params) = true)
    (hk : k ≤ (invokeBlock name params).length)
    (hsplit : k = 0 ∨ 7 ≤ k) :
    runConvert jd [(tms, textFrame (String.mk ((invokeBlock name params).take k))),
                   (tms, textFrame (String.mk ((invokeBlock name params).drop k)))]
        (PState.init none) =
      runConvert jd [(tms, textFrame (String.mk (invokeBlock name params)))]
        (PState.init none) ∧
    (runConvert jd [(tms, textFrame (String.mk (invokeBlock name params)))]
        (PState.init none)).1 =
      [⟨.toolCallStartB (toolIdOf name (parseParams jd params) tms) (String.mk name)
          (.pairs (parseParams jd params)) false none, tms, none⟩] := by
  have hun : runConvert jd [(tms, textFrame (String.mk (invokeBlock name params)))]
      (PState.init none) =
      ([⟨.toolCallStartB (toolIdOf name (parseParams jd params) tms) (String.mk name)
          (.pairs (parseParams jd params)) false none, tms, none⟩],
       { PState.init none with
         buffer := ([] : Chars)
         tool_id_map := [(String.mk name, toolIdOf name (parseParams jd params) tms)]
         sent_tool_ids := [toolIdOf name (parseParams jd params) tms] }) := by
    simp only [runConvert, convert_textFrame]
    rw [textStep_block jd tms (PState.init none) (String.mk (invokeBlock name params))
      name params rfl rfl rfl hfc1 hfc2 hres hfind]
    simp
  refine ⟨?_, by rw [hun]⟩
  rcases hsplit with hk0 | hk7
  · subst hk0
    simp only [List.take_zero, List.drop_zero]
    simp only [runConvert, convert_textFrame]
    rw [textStep_empty jd tms (PState.init none) (String.mk []) rfl rfl]
    simp
  · by_cases hlt : k < (invokeBlock name params).length
    · have hklt : k ≤ (invokeBlock name params).length - 1 := Nat.le_pred_of_lt hlt
      have htake : (invokeBlock name params).take k =
          ((invokeBlock name params).dropLast).take k := by
        rw [List.dropLast_eq_take, List.take_take, min_eq_left hklt]
      have hclA : ¬ containsSub (lit "</invoke>")
          ((invokeBlock name params).take k) = true := by
        rw [htake]; exact fun hc => hcl (containsSub_of_take hc)
      have hfc1A : ¬ containsSub (lit "<function_calls>")
          ((invokeBlock name params).take k) = true :=
        fun hc => hfc1 (containsSub_of_take hc)
      have hfc2A : ¬ containsSub (lit "</function_calls>")
          ((invokeBlock name params).take k) = true :=
        fun hc => hfc2 (containsSub_of_take hc)
      have hresA : ¬ containsSub (lit "<result>")
          ((invokeBlock name params).take k) = true :=
        fun hc => hres (containsSub_of_take hc)
      have hpre7 : (lit "<invoke").isPrefixOf (invokeBlock name params) = true := by
        rw [List.isPrefixOf_iff_prefix]
        refine ⟨lit " name=\"" ++ name ++ lit "\">" ++ params ++ lit "</invoke>", ?_⟩
        show invokeBlock name params = _
        rw [invokeBlock, show lit "<invoke name=\"" = lit "<invoke" ++ lit " name=\"" by decide,
          List.append_assoc, List.append_assoc, List.append_assoc, List.append_assoc]
      have hpreA : (lit "<invoke").isPrefixOf ((invokeBlock name params).take k) = true :=
        isPrefixOf_take hpre7 (by rw [show (lit "<invoke").length = 7 from rfl]; exact hk7)
      have hf1 := textStep_retained jd tms (PState.init none)
        ((invokeBlock name params).take k) rfl hfc1A hfc2A hresA hclA hpreA
      have hf2 := textStep_block jd tms
        { PState.init none with buffer := (invokeBlock name params).take k }
        (String.mk ((invokeBlock name params).drop k)) name params rfl rfl
        (List.take_append_drop k (invokeBlock name params)) hfc1 hfc2 hres hfind
      rw [hun]
      simp only [runConvert, convert_textFrame]
      rw [hf1, hf2]
      simp [PState.init]
    · have hkeq : k = (invokeBlock name params).length :=
        Nat.le_antisymm hk (Nat.le_of_not_lt hlt)
      subst hkeq
      simp only [List.take_length, List.drop_length]
      rw [hun]
      simp only [runConvert, convert_textFrame]
      rw [textStep_block jd tms (PState.init none) (String.mk (invokeBlock name params))
        name params rfl rfl rfl hfc1 hfc2 hres hfind]
      rw [textStep_empty jd tms _ (String.mk []) rfl rfl]
      simp

theorem c6_split_invariance_witness :
    runConvert jdNone
        [(7, textFrame (String.mk ((invokeBlock scenarioBName scenarioBParams).take 10))),
         (7, textFrame (String.mk ((invokeBlock scenarioBName scenarioBParams).drop 10)))]
        (PState.init none) =
      runConvert jdNone
        [(7, textFrame (String.mk (invokeBlock scenarioBName scenarioBParams)))]
        (PState.init none) ∧
    (runConvert jdNone
        [(7, textFrame (String.mk (invokeBlock scenarioBName scenarioBParams)))]
        (PState.init none)).1 =
      [⟨.toolCallStartB (toolIdOf scenarioBName (parseParams jdNone scenarioBParams) 7)
          (String.mk scenarioBName) (.pairs (parseParams jdNone scenarioBParams)) false none,
        7, none⟩] :=
  c6_split_invariance jdNone 7 scenarioBName scenarioBParams 10 (by decide) (by decide)
    (by decide) (by decide) (by decide) (by decide) (Or.inr (by decide))

end CostqWeb

